import Mathlib

/-!
Verification of the ScoreTracker core: the tournament structure generator
(`shared/src/tournament-formats.ts`) and the match scoring engine
(`shared/src/sports.ts`), plus the status-transition guards of the match
lifecycle routes (`server/src/routes/matches.ts`).

The TypeScript code is embedded shallowly: JavaScript numbers holding
scores, counts and indices are modelled as `Nat` (the schemas constrain
them to non-negative integers); array indices that can be negative in the
source (`currentPeriod - 1` when `currentPeriod = 0`) are modelled as
`Int`, with `arr[i]` returning `none` (JS `undefined`) out of bounds;
the `-1` phantom-bye sentinel of the round-robin generator is modelled by
working with `Int` entries.
-/

namespace ScoreTracker

/-- Match status enum (`MatchStatusSchema` in `shared/src/schemas.ts`). -/
inductive MatchStatus where
  | SCHEDULED
  | LIVE
  | PAUSED
  | COMPLETED
  | CANCELLED
deriving DecidableEq, Repr

/-- Match stage enum (`MatchStageSchema` in `shared/src/schemas.ts`). -/
inductive MatchStage where
  | GROUP
  | ROUND_OF_16
  | QUARTERFINAL
  | SEMIFINAL
  | THIRD_PLACE
  | FINAL
deriving DecidableEq, Repr

/-- Team side enum (`TeamSideSchema` in `shared/src/schemas.ts`). -/
inductive TeamSide where
  | HOME
  | AWAY
deriving DecidableEq, Repr

/-- Winner side as reported by `shouldEndMatch` (`'home' | 'away' | null`,
with `null` modelled by `Option`). -/
inductive WinnerSide where
  | home
  | away
deriving DecidableEq, Repr

/-- `SportConfig` from `shared/src/sports.ts` (fields used by the engine;
`periodName`, `scoreLabels`, `pointsToWinPeriod`, `canTie` are carried for
completeness). -/
structure SportConfig where
  periods : Nat
  periodName : String
  scoreIncrements : List Nat
  scoreLabels : List String
  pointsToWinPeriod : Option Nat
  canTie : Bool
deriving DecidableEq, Repr

/-- `MatchState` from `shared/src/sports.ts`. -/
structure MatchState where
  homeScore : Nat
  awayScore : Nat
  homePeriodScores : List Nat
  awayPeriodScores : List Nat
  currentPeriod : Nat
  status : MatchStatus
deriving DecidableEq, Repr

/-- `ScoreActionResult` from `shared/src/sports.ts`. -/
structure ScoreActionResult where
  valid : Bool
  newState : MatchState
  message : Option String
  periodEnded : Option Bool
  matchEnded : Option Bool
  winnerId : Option (Option WinnerSide)
deriving DecidableEq, Repr

/-- Result of `shouldEndMatch`. -/
structure EndMatchResult where
  ended : Bool
  winnerId : Option WinnerSide
deriving DecidableEq, Repr

/-- JS array read `l[idx]` with a possibly negative index: `none` is
JS `undefined`. -/
def getIdx (l : List Nat) (idx : Int) : Option Nat :=
  if h : 0 ≤ idx ∧ idx.toNat < l.length then some (l.get ⟨idx.toNat, h.2⟩) else none

/-- JS `l[idx] ?? 0`. -/
def getIdxD (l : List Nat) (idx : Int) : Nat :=
  (getIdx l idx).getD 0

/-- JS in-range array write `l[idx] = v` (only invoked by the engine after
an `!== undefined` read at the same index, so `idx` is then in range). -/
def setIdx (l : List Nat) (idx : Int) (v : Nat) : List Nat :=
  if 0 ≤ idx then l.set idx.toNat v else l

/-- The `while (arr.length <= periodIndex) arr = [...arr, 0]` padding loop
of `applyScore`: extends the array with zeros until `periodIndex` is in
range. -/
def padTo (l : List Nat) (idx : Int) : List Nat :=
  if idx < 0 then l else l ++ List.replicate (idx.toNat + 1 - l.length) 0

/-- The overridable parts of a sport handler: `config` plus the
`shouldEndPeriod` / `shouldEndMatch` predicates (the base handler returns
`false` for both; concrete sports override them). -/
structure SportHandler where
  config : SportConfig
  shouldEndPeriod : MatchState → Bool
  shouldEndMatch : MatchState → EndMatchResult

/-- `validateAction` of the base sport handler. -/
def validateAction (config : SportConfig) (state : MatchState) (_teamSide : TeamSide)
    (points : Nat) : Bool × Option String :=
  if state.status ≠ MatchStatus.LIVE then
    (false, some "Match is not live")
  else if points ∉ config.scoreIncrements then
    (false, some "Invalid point value")
  else
    (true, none)

/-- `applyScore` of the base sport handler: validates, zero-pads both
period arrays up to the current period index, adds `points` to the acting
side's total and current-period bucket (the bucket write is guarded by a
JS `!== undefined` check), then evaluates the end-of-period and
end-of-match predicates on the new state. -/
def applyScore (h : SportHandler) (state : MatchState) (teamSide : TeamSide)
    (points : Nat) : ScoreActionResult :=
  let validation := validateAction h.config state teamSide points
  if validation.1 = false then
    { valid := false, newState := state,
      message := some (validation.2.getD "Invalid action"),
      periodEnded := none, matchEnded := none, winnerId := none }
  else
    let periodIndex : Int := (state.currentPeriod : Int) - 1
    let homePS := padTo state.homePeriodScores periodIndex
    let awayPS := padTo state.awayPeriodScores periodIndex
    let newState :=
      match teamSide with
      | TeamSide.HOME =>
        { state with
          homeScore := state.homeScore + points,
          homePeriodScores :=
            match getIdx homePS periodIndex with
            | some v => setIdx homePS periodIndex (v + points)
            | none => homePS,
          awayPeriodScores := awayPS }
      | TeamSide.AWAY =>
        { state with
          awayScore := state.awayScore + points,
          homePeriodScores := homePS,
          awayPeriodScores :=
            match getIdx awayPS periodIndex with
            | some v => setIdx awayPS periodIndex (v + points)
            | none => awayPS }
    let matchResult := h.shouldEndMatch newState
    { valid := true, newState := newState, message := none,
      periodEnded := some (h.shouldEndPeriod newState),
      matchEnded := some matchResult.ended,
      winnerId := some matchResult.winnerId }

/-- `undoScore` of the base sport handler: subtracts `points` from the
side's total and from the bucket of the named `period`, clamped at zero
(`Math.max(0, x - points)`, which on `Nat` is truncated subtraction). -/
def undoScore (state : MatchState) (teamSide : TeamSide) (points : Nat)
    (period : Nat) : MatchState :=
  let periodIndex : Int := (period : Int) - 1
  match teamSide with
  | TeamSide.HOME =>
    { state with
      homeScore := state.homeScore - points,
      homePeriodScores :=
        match getIdx state.homePeriodScores periodIndex with
        | some v => setIdx state.homePeriodScores periodIndex (v - points)
        | none => state.homePeriodScores }
  | TeamSide.AWAY =>
    { state with
      awayScore := state.awayScore - points,
      awayPeriodScores :=
        match getIdx state.awayPeriodScores periodIndex with
        | some v => setIdx state.awayPeriodScores periodIndex (v - points)
        | none => state.awayPeriodScores }

/-- `nextPeriod` of the base sport handler: no-op at the configured period
count, otherwise increments `currentPeriod` and appends a zero bucket to
both period arrays. -/
def nextPeriod (config : SportConfig) (state : MatchState) : MatchState :=
  if state.currentPeriod ≥ config.periods then
    state
  else
    { state with
      currentPeriod := state.currentPeriod + 1,
      homePeriodScores := state.homePeriodScores ++ [0],
      awayPeriodScores := state.awayPeriodScores ++ [0] }

/-- The volleyball handler's `SportConfig`. -/
def volleyballConfig : SportConfig :=
  { periods := 5, periodName := "Set", scoreIncrements := [1],
    scoreLabels := ["Point"], pointsToWinPeriod := some 25, canTie := false }

/-- `shouldEndPeriod` of the volleyball handler: the current set ends when
one side reaches the set target (15 in set 5, else 25) with a margin of at
least 2 points. -/
def volleyballShouldEndPeriod (state : MatchState) : Bool :=
  let periodIndex : Int := (state.currentPeriod : Int) - 1
  let homeSetScore := getIdxD state.homePeriodScores periodIndex
  let awaySetScore := getIdxD state.awayPeriodScores periodIndex
  let pointsToWin : Nat := if state.currentPeriod = 5 then 15 else 25
  let minDiff : Int := 2
  let homeWins :=
    homeSetScore ≥ pointsToWin ∧ (homeSetScore : Int) - awaySetScore ≥ minDiff
  let awayWins :=
    awaySetScore ≥ pointsToWin ∧ (awaySetScore : Int) - homeSetScore ≥ minDiff
  decide (homeWins ∨ awayWins)

/-- The set-counting loop of the volleyball handler (`for i in
[0, currentPeriod)`, comparing the two buckets with `?? 0` reads):
number of sets won by home. -/
def volleyballHomeSets (state : MatchState) : Nat :=
  ((List.range state.currentPeriod).filter (fun i : Nat =>
    getIdxD state.awayPeriodScores i < getIdxD state.homePeriodScores i)).length

/-- Number of sets won by away in the same loop. -/
def volleyballAwaySets (state : MatchState) : Nat :=
  ((List.range state.currentPeriod).filter (fun i : Nat =>
    getIdxD state.homePeriodScores i < getIdxD state.awayPeriodScores i)).length

/-- `shouldEndMatch` of the volleyball handler: best of 5, first to 3 sets
(home is checked first). -/
def volleyballShouldEndMatch (state : MatchState) : EndMatchResult :=
  if volleyballHomeSets state ≥ 3 then
    { ended := true, winnerId := some WinnerSide.home }
  else if volleyballAwaySets state ≥ 3 then
    { ended := true, winnerId := some WinnerSide.away }
  else
    { ended := false, winnerId := none }

/-- The volleyball handler: base handler for `volleyballConfig` with the
two predicates overridden. -/
def createVolleyballHandler : SportHandler :=
  { config := volleyballConfig,
    shouldEndPeriod := volleyballShouldEndPeriod,
    shouldEndMatch := volleyballShouldEndMatch }

/-! ## Tournament structure generator (`shared/src/tournament-formats.ts`) -/

/-- `GeneratedMatch`: `null` team indices (TBD slots) are `none`. -/
structure GeneratedMatch where
  homeTeamIndex : Option Nat
  awayTeamIndex : Option Nat
  round : Nat
  matchNumber : Nat
  stage : MatchStage
  groupIndex : Option Nat
deriving DecidableEq, Repr

/-- `GeneratedGroup`. -/
structure GeneratedGroup where
  name : String
  teamIndices : List Nat
deriving DecidableEq, Repr

/-- `GeneratedTournament`. -/
structure GeneratedTournament where
  groups : List GeneratedGroup
  «matches» : List GeneratedMatch
deriving DecidableEq, Repr

/-- Sequential assignment of `matchNumber` starting from 1, mirroring the
`matchNumber++` counter that every generator threads through its pushes. -/
def renumber (ms : List GeneratedMatch) : List GeneratedMatch :=
  ms.enum.map (fun jm => { jm.2 with matchNumber := jm.1 + 1 })

/-- One end-of-round rotation of the round-robin circle method: keep the
first entry fixed, `pop` the last entry and `splice` it in at position 1. -/
def rotateOnce (l : List Int) : List Int :=
  match l with
  | [] => []
  | a :: rest =>
    match rest.getLast? with
    | none => [a]
    | some last => a :: last :: rest.dropLast

/-- One round of the circle method on the current team list: pair position
`i` with position `n - 1 - i` for `i < n / 2`, keeping a pairing only when
both reads are defined and neither entry is the phantom bye `-1`.  (The
source reads the loop bound `n` from the list before any rotation; rotation
preserves length, so `l.length` here is that same `n`.) -/
def roundMatchesRaw (l : List Int) : List (Int × Int) :=
  (List.range (l.length / 2)).filterMap (fun i =>
    match l.get? i, l.get? (l.length - 1 - i) with
    | some home, some away =>
      if home ≠ -1 ∧ away ≠ -1 then some (home, away) else none
    | _, _ => none)

/-- The round loop of `generateRoundRobin`: emit one round's pairings, then
rotate; the outer list is indexed by round (0-based here, 1-based in the
emitted matches). -/
def rrRounds : List Int → Nat → List (List (Int × Int))
  | _, 0 => []
  | l, r + 1 => roundMatchesRaw l :: rrRounds (rotateOnce l) r

/-- `generateRoundRobin`: circle method over team indices `0..teamCount-1`,
with a `-1` phantom bye appended when `teamCount` is odd.  Surviving
pairings are non-negative, so storing them with `Int.toNat` is exact. -/
def generateRoundRobin (teamCount : Nat) : GeneratedTournament :=
  let teams : List Int := (List.range teamCount).map (fun i => Int.ofNat i)
  let teamsWithBye := if teamCount % 2 = 1 then teams ++ [-1] else teams
  let n := teamsWithBye.length
  let tagged : List (Nat × Int × Int) :=
    ((rrRounds teamsWithBye (n - 1)).enum).flatMap (fun rms =>
      rms.2.map (fun p => (rms.1 + 1, p.1, p.2)))
  { groups := [],
    «matches» := renumber (tagged.map (fun t =>
      { homeTeamIndex := some t.2.1.toNat, awayTeamIndex := some t.2.2.toNat,
        round := t.1, matchNumber := 0, stage := MatchStage.GROUP,
        groupIndex := none })) }

/-- The `result.push(seed); result.push(size - 1 - seed)` expansion loop of
`generateSeededBracket`. -/
def expandSeeds (size : Nat) : List Nat → List Nat
  | [] => []
  | s :: rest => s :: (size - 1 - s) :: expandSeeds size rest

/-- `generateSeededBracket` from the source takes the bracket size, always
a power of two; it is embedded as a function of the exponent:
`generateSeededBracket k` is the source call at `size = 2 ^ k`. -/
def generateSeededBracket : Nat → List Nat
  | 0 => [0]
  | 1 => [0, 1]
  | k + 2 => expandSeeds (2 ^ (k + 2)) (generateSeededBracket (k + 1))

/-- `Math.ceil(Math.log2 n)` for `n ≥ 1`: the least `k` with `n ≤ 2 ^ k`
(searched over `k ≤ n`, which always contains it since `n ≤ 2 ^ n`).  This
computes by structural recursion so that concrete brackets evaluate inside
proofs; it agrees with `Nat.clog 2` (proved below). -/
def ceilLog2 (n : Nat) : Nat :=
  ((List.range (n + 1)).find? (fun k => n ≤ 2 ^ k)).getD 0

/-- `getStageForRound`: stage from rounds remaining before the final
(computed in `Int` since the source value can be negative, falling through
to the `default` arm). -/
def getStageForRound (round totalRounds : Nat) : MatchStage :=
  let roundsFromEnd : Int := (totalRounds : Int) - round
  if roundsFromEnd = 0 then MatchStage.FINAL
  else if roundsFromEnd = 1 then MatchStage.SEMIFINAL
  else if roundsFromEnd = 2 then MatchStage.QUARTERFINAL
  else if roundsFromEnd = 3 then MatchStage.ROUND_OF_16
  else MatchStage.GROUP

/-- `generateSingleElimination`: bracket size is the smallest power of two
`≥ teamCount` (`2 ^ ceilLog2 teamCount`, matching
`Math.pow(2, Math.ceil(Math.log2(teamCount)))`), round 1 is paired from the
seeding order with out-of-range seeds as `null`, and rounds 2..rounds hold
TBD placeholders.  For `teamCount = 0` the source's `Math.log2(0) =
-Infinity` makes the bracket size 0 and both loops empty.  The first-round
loop bound `bracketSize / 2` is fractional in the source when
`bracketSize = 1` (one iteration), hence `(bracketSize + 1) / 2` here.
`matchNumber` is assigned by the shared sequential counter. -/
def generateSingleElimination (teamCount : Nat) : GeneratedTournament :=
  if teamCount = 0 then { groups := [], «matches» := [] } else
  let rounds := ceilLog2 teamCount
  let bracketSize := 2 ^ rounds
  let seededPositions := generateSeededBracket rounds
  let firstRound : List GeneratedMatch :=
    (List.range ((bracketSize + 1) / 2)).map (fun i =>
      let team1 := match seededPositions.get? (2 * i) with
        | some p => if p < teamCount then some p else none
        | none => none
      let team2 := match seededPositions.get? (2 * i + 1) with
        | some p => if p < teamCount then some p else none
        | none => none
      { homeTeamIndex := team1, awayTeamIndex := team2, round := 1,
        matchNumber := 0, stage := getStageForRound 1 rounds,
        groupIndex := none })
  let laterRounds : List GeneratedMatch :=
    (List.range (rounds - 1)).flatMap (fun j =>
      (List.range (bracketSize / 2 ^ (j + 2))).map (fun _ =>
        { homeTeamIndex := none, awayTeamIndex := none, round := j + 2,
          matchNumber := 0, stage := getStageForRound (j + 2) rounds,
          groupIndex := none }))
  { groups := [], «matches» := renumber (firstRound ++ laterRounds) }

/-- The index/direction update of the snake draft: step, and bounce off
either end by flipping the direction and stepping back. -/
def snakeStep (groupCount : Nat) (gi dir : Int) : Int × Int :=
  let gi' := gi + dir
  if gi' ≥ (groupCount : Int) ∨ gi' < 0 then (gi' + (-dir), -dir) else (gi', dir)

/-- The snake-draft assignment loop of `generateGroupKnockout`: appends
each team index to the group at the current (guarded) group index. -/
def snakeLoop (groupCount : Nat) :
    List Nat → Int → Int → List (List Nat) → List (List Nat)
  | [], _, _, groups => groups
  | teamIndex :: rest, gi, dir, groups =>
    let groups' :=
      if h : 0 ≤ gi ∧ gi.toNat < groups.length then
        groups.set gi.toNat (groups.get ⟨gi.toNat, h.2⟩ ++ [teamIndex])
      else groups
    let next := snakeStep groupCount gi dir
    snakeLoop groupCount rest next.1 next.2 groups'

/-- `generateGroupKnockout`: snake-draft the team indices into
`groupCount` groups, play a round robin inside each group (local indices
remapped through the group's team list), then append a TBD knockout
bracket for `groupCount * advancingPerGroup` with rounds offset past the
last group round. -/
def generateGroupKnockout (teamCount groupCount : Nat)
    (advancingPerGroup : Nat := 2) : GeneratedTournament :=
  let teamIndices := List.range teamCount
  let groupLists := snakeLoop groupCount teamIndices 0 1
    (List.replicate groupCount ([] : List Nat))
  let groups : List GeneratedGroup := groupLists.enum.map (fun gt =>
    { name := "Group ".push (Char.ofNat (65 + gt.1)), teamIndices := gt.2 })
  let groupMatches : List GeneratedMatch :=
    groupLists.enum.flatMap (fun gt =>
      (generateRoundRobin gt.2.length).«matches».map (fun m =>
        { homeTeamIndex := match m.homeTeamIndex with
            | some i => gt.2.get? i
            | none => none,
          awayTeamIndex := match m.awayTeamIndex with
            | some i => gt.2.get? i
            | none => none,
          round := m.round, matchNumber := 0, stage := MatchStage.GROUP,
          groupIndex := some gt.1 }))
  let knockoutBracket := generateSingleElimination (groupCount * advancingPerGroup)
  let lastGroupRound := (groupMatches.map (fun m => m.round)).foldr max 0
  let knockoutMatches := knockoutBracket.«matches».map (fun m =>
    { m with round := lastGroupRound + m.round,
             homeTeamIndex := none, awayTeamIndex := none })
  { groups := groups, «matches» := renumber (groupMatches ++ knockoutMatches) }

/-! ## Match lifecycle route guards (`server/src/routes/matches.ts`)

Each route model captures the pure status/period transition of the route
body after the not-found and admin-password gates (external collaborators
per the spec); `Except.error` is the early `res.status(400)` return, on
which the stored match is not updated. -/

/-- `POST /api/matches/:matchId/start`: only from `SCHEDULED` or
`PAUSED`; sets status `LIVE`. -/
def startMatch (m : MatchState) : Except String MatchState :=
  if m.status ≠ MatchStatus.SCHEDULED ∧ m.status ≠ MatchStatus.PAUSED then
    Except.error "Match cannot be started"
  else
    Except.ok { m with status := MatchStatus.LIVE }

/-- `POST /api/matches/:matchId/pause`: only from `LIVE`; sets status
`PAUSED`. -/
def pauseMatch (m : MatchState) : Except String MatchState :=
  if m.status ≠ MatchStatus.LIVE then
    Except.error "Match is not live"
  else
    Except.ok { m with status := MatchStatus.PAUSED }

/-- `POST /api/matches/:matchId/end`: no status guard; the winner is the
strictly higher-scoring side (`null` on a tie) and status becomes
`COMPLETED`. -/
def endMatch (m : MatchState) : Except String (MatchState × Option WinnerSide) :=
  let winnerId : Option WinnerSide :=
    if m.awayScore < m.homeScore then some WinnerSide.home
    else if m.homeScore < m.awayScore then some WinnerSide.away
    else none
  Except.ok ({ m with status := MatchStatus.COMPLETED }, winnerId)

/-- `POST /api/matches/:matchId/next-period`: guarded only by
`currentPeriod >= sport.periods` (there is no status check in the route);
otherwise increments the period and appends a zero bucket to both period
arrays. -/
def nextPeriodRoute (sportPeriods : Nat) (m : MatchState) : Except String MatchState :=
  if m.currentPeriod ≥ sportPeriods then
    Except.error "Already at final period"
  else
    Except.ok
      { m with
        currentPeriod := m.currentPeriod + 1,
        homePeriodScores := m.homePeriodScores ++ [0],
        awayPeriodScores := m.awayPeriodScores ++ [0] }

/-! ## Sequences of engine calls (for the undo/score-conservation claims) -/

/-- Run a sequence of `applyScore` calls, threading `newState`. -/
def applySeq (h : SportHandler) : MatchState → List (TeamSide × Nat) → MatchState
  | s, [] => s
  | s, a :: rest => applySeq h (applyScore h s a.1 a.2).newState rest

/-- Run a sequence of `undoScore` calls, each with explicit
`(teamSide, points, period)` arguments. -/
def undoSeq : MatchState → List (TeamSide × Nat × Nat) → MatchState
  | s, [] => s
  | s, u :: rest => undoSeq (undoScore s u.1 u.2.1 u.2.2) rest

/-- Every `applyScore` call in the sequence reports `valid = true` (a
"sequence of successful applyScore calls"). -/
def allAppliesValid (h : SportHandler) : MatchState → List (TeamSide × Nat) → Bool
  | _, [] => true
  | s, a :: rest =>
    (applyScore h s a.1 a.2).valid &&
      allAppliesValid h (applyScore h s a.1 a.2).newState rest

/-! ## Round-robin circle-method model (closed form used for C1) -/

/-- Iterated end-of-round rotation. -/
def rotIter : Nat → List Int → List Int
  | 0, l => l
  | r + 1, l => rotIter r (rotateOnce l)

/-- Length of the circle-method working list (`teamsWithBye`). -/
def rrN (t : Nat) : Nat := if t % 2 = 1 then t + 1 else t

/-- Length of its rotating tail. -/
def rrM (t : Nat) : Nat := rrN t - 1

/-- Value stored at position `p` of the initial working list: the team
index itself, or the phantom bye `-1` at the appended slot. -/
def rrVal (t : Nat) (p : Nat) : Int := if p < t then (p : Int) else -1

/-- Tail position holding, after `r` rotations, the value that started at
tail position `q`... more precisely: after `r` right-rotations the value at
tail position `q` is the initial tail value at position `φ`. -/
def rrPhi (t r q : Nat) : Nat := (q + r * (rrM t - 1)) % rrM t

/-- Initial tail value read after `r` rotations at tail position `q`. -/
def rrTailVal (t r q : Nat) : Int := rrVal t (rrPhi t r q + 1)

/-- The unfiltered pairings of round `r` (0-based): the fixed head against
the last tail slot, and tail slot `j` against tail slot `m - 2 - j`. -/
def rrPairsAbs (t r : Nat) : List (Int × Int) :=
  (rrVal t 0, rrTailVal t r (rrM t - 1)) ::
    (List.range ((rrM t - 1) / 2)).map
      (fun j => (rrTailVal t r j, rrTailVal t r (rrM t - 2 - j)))

/-- The initial circle-method working list (`teamsWithBye`). -/
def rrList (t : Nat) : List Int :=
  if t % 2 = 1 then ((List.range t).map (fun i => Int.ofNat i)) ++ [-1]
  else (List.range t).map (fun i => Int.ofNat i)

/-- Its rotating tail. -/
def rrTail (t : Nat) : List Int := (rrList t).tail

/-- The tail slots used by one round, in pairing order: the head's
opponent slot, then slot `j` and slot `m - 2 - j` for each pairing `j`. -/
def rrSlots (t : Nat) : List Nat :=
  (rrM t - 1) :: (List.range ((rrM t - 1) / 2)).flatMap
    (fun j => [j, rrM t - 2 - j])

/-- Unordered-pair key of a pairing. -/
def keyOf (p : Int × Int) : Int × Int := (min p.1 p.2, max p.1 p.2)

/-- Round `r` pairings after dropping those touching the phantom bye. -/
def rrFiltered (t r : Nat) : List (Int × Int) :=
  (rrPairsAbs t r).filter (fun p => decide (p.1 ≠ -1 ∧ p.2 ≠ -1))

/-- The round-tagged pair list produced by `generateRoundRobin`, in closed
form: round `r + 1` carries the filtered abstract pairings of round `r`. -/
def rrTagged (t : Nat) : List (Nat × Int × Int) :=
  (List.range (rrM t)).flatMap
    (fun r => (rrFiltered t r).map (fun p => (r + 1, p.1, p.2)))

/-- The `GeneratedMatch` that `generateRoundRobin` builds from one tagged
pairing (before match numbers are assigned). -/
def rrToGm (tg : Nat × Int × Int) : GeneratedMatch :=
  { homeTeamIndex := some tg.2.1.toNat, awayTeamIndex := some tg.2.2.toNat,
    round := tg.1, matchNumber := 0, stage := MatchStage.GROUP,
    groupIndex := none }

/-- All unordered pairs of distinct team indices, as ordered keys. -/
def allKeys (t : Nat) : List (Int × Int) :=
  (List.range t).flatMap
    (fun b => (List.range b).map (fun a : Nat => ((a : Int), (b : Int))))

/-! ## Theorems -/

/-- C10: for the degenerate inputs `teamCount = 0` and `teamCount = 1`,
`generateRoundRobin` returns normally (the embedding is total, and the
source path performs no throwing operation) with an empty match list and
an empty group list. -/
theorem generateRoundRobin_degenerate :
    generateRoundRobin 0 = { groups := [], «matches» := [] } ∧
    generateRoundRobin 1 = { groups := [], «matches» := [] } :=
  ⟨rfl, rfl⟩

/-- C7: for the volleyball handler, `shouldEndPeriod` is `true` exactly
when one side's current-period bucket has reached the period's point
target (25, reduced to 15 in period 5) and leads the other bucket by at
least 2 points; in particular home at 25 with away at 20 in period 1 ends
the period. -/
theorem volleyball_shouldEndPeriod_iff :
    (∀ s : MatchState,
      volleyballShouldEndPeriod s = true ↔
        ((getIdxD s.homePeriodScores ((s.currentPeriod : Int) - 1) ≥
            (if s.currentPeriod = 5 then 15 else 25) ∧
          getIdxD s.homePeriodScores ((s.currentPeriod : Int) - 1) ≥
            getIdxD s.awayPeriodScores ((s.currentPeriod : Int) - 1) + 2) ∨
         (getIdxD s.awayPeriodScores ((s.currentPeriod : Int) - 1) ≥
            (if s.currentPeriod = 5 then 15 else 25) ∧
          getIdxD s.awayPeriodScores ((s.currentPeriod : Int) - 1) ≥
            getIdxD s.homePeriodScores ((s.currentPeriod : Int) - 1) + 2))) ∧
    volleyballShouldEndPeriod
      { homeScore := 25, awayScore := 20, homePeriodScores := [25],
        awayPeriodScores := [20], currentPeriod := 1,
        status := MatchStatus.LIVE } = true := by
  constructor
  · intro s
    simp only [volleyballShouldEndPeriod, decide_eq_true_eq]
    omega
  · decide

/-- Two filters with incompatible predicates select disjoint sublists, so
their lengths sum to at most the whole. -/
theorem length_filter_add_length_filter_le {α : Type} (p q : α → Bool)
    (hpq : ∀ x, ¬(p x = true ∧ q x = true)) :
    ∀ l : List α, (l.filter p).length + (l.filter q).length ≤ l.length := by
  intro l
  induction l with
  | nil => simp
  | cons a t ih =>
    by_cases hp : p a = true
    · have hq : q a = false := by
        cases hq : q a
        · rfl
        · exact absurd ⟨hp, hq⟩ (hpq a)
      simp only [List.filter_cons, hp, hq, List.length_cons,
        Bool.false_eq_true, ite_false, ite_true]
      omega
    · have hp' : p a = false := by simpa using hp
      by_cases hq : q a = true
      · simp only [List.filter_cons, hp', hq, List.length_cons,
          Bool.false_eq_true, ite_false, ite_true]
        omega
      · have hq' : q a = false := by simpa using hq
        simp only [List.filter_cons, hp', hq', Bool.false_eq_true, ite_false,
          List.length_cons]
        omega

/-- In the volleyball set-counting loop, home sets and away sets together
never exceed the number of periods scanned. -/
theorem volleyballSets_le (s : MatchState) :
    volleyballHomeSets s + volleyballAwaySets s ≤ s.currentPeriod := by
  have h := length_filter_add_length_filter_le
    (fun i : Nat => decide (getIdxD s.awayPeriodScores i < getIdxD s.homePeriodScores i))
    (fun i : Nat => decide (getIdxD s.homePeriodScores i < getIdxD s.awayPeriodScores i))
    (by intro x; simp only [decide_eq_true_eq]; omega)
    (List.range s.currentPeriod)
  simpa [volleyballHomeSets, volleyballAwaySets] using h

/-- C6: for the volleyball handler (best of `volleyballConfig.periods = 5`
sets), `shouldEndMatch` reports `ended = true` with the corresponding
winner exactly when one side has won strictly more than half of the
configured best-of periods, i.e. at least 3 sets.  The hypothesis restricts
to states whose current period does not exceed the configured period count
(the engine's `nextPeriod` caps `currentPeriod` there). -/
theorem volleyball_shouldEndMatch_majority (s : MatchState)
    (h5 : s.currentPeriod ≤ volleyballConfig.periods) :
    ((volleyballShouldEndMatch s).ended = true ↔
      2 * volleyballHomeSets s > volleyballConfig.periods ∨
      2 * volleyballAwaySets s > volleyballConfig.periods) ∧
    (volleyballShouldEndMatch s =
        { ended := true, winnerId := some WinnerSide.home } ↔
      2 * volleyballHomeSets s > volleyballConfig.periods) ∧
    (volleyballShouldEndMatch s =
        { ended := true, winnerId := some WinnerSide.away } ↔
      2 * volleyballAwaySets s > volleyballConfig.periods) := by
  have hsum := volleyballSets_le s
  have hp5 : volleyballConfig.periods = 5 := rfl
  rw [hp5] at h5 ⊢
  by_cases h1 : volleyballHomeSets s ≥ 3
  · have e : volleyballShouldEndMatch s =
        { ended := true, winnerId := some WinnerSide.home } := by
      unfold volleyballShouldEndMatch
      rw [if_pos h1]
    rw [e]
    refine ⟨⟨fun _ => Or.inl (by omega), fun _ => rfl⟩,
            ⟨fun _ => by omega, fun _ => rfl⟩,
            ⟨fun hc => absurd hc (by decide), fun ha => absurd ha (by omega)⟩⟩
  · by_cases h2 : volleyballAwaySets s ≥ 3
    · have e : volleyballShouldEndMatch s =
          { ended := true, winnerId := some WinnerSide.away } := by
        unfold volleyballShouldEndMatch
        rw [if_neg h1, if_pos h2]
      rw [e]
      refine ⟨⟨fun _ => Or.inr (by omega), fun _ => rfl⟩,
              ⟨fun hc => absurd hc (by decide), fun hh => absurd hh (by omega)⟩,
              ⟨fun _ => by omega, fun _ => rfl⟩⟩
    · have e : volleyballShouldEndMatch s =
          { ended := false, winnerId := none } := by
        unfold volleyballShouldEndMatch
        rw [if_neg h1, if_neg h2]
      rw [e]
      refine ⟨⟨fun hc => absurd hc (by decide), fun hor => ?_⟩,
              ⟨fun hc => absurd hc (by decide), fun hh => absurd hh (by omega)⟩,
              ⟨fun hc => absurd hc (by decide), fun ha => absurd ha (by omega)⟩⟩
      rcases hor with hh | ha
      · omega
      · omega

/-- Witness for C6: home has won sets 1–3 (25–20 each), so the match ends
with home as winner. -/
theorem volleyball_shouldEndMatch_majority_witness :
    volleyballShouldEndMatch
      { homeScore := 75, awayScore := 60, homePeriodScores := [25, 25, 25],
        awayPeriodScores := [20, 20, 20], currentPeriod := 3,
        status := MatchStatus.LIVE } =
      { ended := true, winnerId := some WinnerSide.home } :=
  ((volleyball_shouldEndMatch_majority _ (by decide)).2.1).mpr (by decide)

/-- C4 (amended): `start` and `pause` on a `COMPLETED` match always fail
with an illegal-transition error (the route returns early, leaving the
match unchanged); `next-period` fails exactly when
`currentPeriod >= sport.periods`, with no status check at all (so it can
succeed on a `COMPLETED` match); `end` succeeds from every status, in
particular from every non-terminal one. -/
theorem lifecycle_transition_guards :
    (∀ m : MatchState, m.status = MatchStatus.COMPLETED →
      startMatch m = Except.error "Match cannot be started" ∧
      pauseMatch m = Except.error "Match is not live") ∧
    (∀ (sportPeriods : Nat) (m : MatchState),
      (nextPeriodRoute sportPeriods m).isOk = true ↔
        m.currentPeriod < sportPeriods) ∧
    (∀ m : MatchState, (endMatch m).isOk = true) := by
  refine ⟨?_, ?_, ?_⟩
  · intro m hm
    constructor
    · unfold startMatch
      rw [if_pos (by rw [hm]; exact ⟨by decide, by decide⟩)]
    · unfold pauseMatch
      rw [if_pos (by rw [hm]; decide)]
  · intro p m
    unfold nextPeriodRoute
    split_ifs with h
    · constructor
      · intro hc
        exact absurd hc (by decide)
      · intro hlt
        omega
    · constructor
      · intro _
        omega
      · intro _
        rfl
  · intro m
    rfl

/-- Witness for C4: the two failing transitions at a concrete completed
match. -/
theorem lifecycle_transition_guards_witness :
    startMatch
        { homeScore := 0, awayScore := 0, homePeriodScores := [],
          awayPeriodScores := [], currentPeriod := 1,
          status := MatchStatus.COMPLETED } =
      Except.error "Match cannot be started" ∧
    pauseMatch
        { homeScore := 0, awayScore := 0, homePeriodScores := [],
          awayPeriodScores := [], currentPeriod := 1,
          status := MatchStatus.COMPLETED } =
      Except.error "Match is not live" :=
  lifecycle_transition_guards.1 _ rfl

/-- Counterexample for C4 as stated: advancing the period of a
`COMPLETED` match that is not yet at the final period succeeds (and
mutates the match) instead of failing with an illegal-transition error. -/
theorem nextPeriodRoute_completed_succeeds :
    nextPeriodRoute 4
        { homeScore := 0, awayScore := 0, homePeriodScores := [0],
          awayPeriodScores := [0], currentPeriod := 1,
          status := MatchStatus.COMPLETED } =
      Except.ok
        { homeScore := 0, awayScore := 0, homePeriodScores := [0, 0],
          awayPeriodScores := [0, 0], currentPeriod := 2,
          status := MatchStatus.COMPLETED } := rfl

/-- C5 (amended): `generateSingleElimination 5` produces exactly 3 bye
matches (round-1 matches with exactly one non-null team index), and every
one of them has its single non-null team index among the top three seeds
`{0, 1, 2}`. -/
theorem singleElimination5_byes_top_three :
    (((generateSingleElimination 5).«matches».filter (fun m =>
        m.round = 1 ∧ ((m.homeTeamIndex.isSome ∧ m.awayTeamIndex = none) ∨
          (m.homeTeamIndex = none ∧ m.awayTeamIndex.isSome)))).length = 3) ∧
    (∀ m ∈ (generateSingleElimination 5).«matches».filter (fun m =>
        m.round = 1 ∧ ((m.homeTeamIndex.isSome ∧ m.awayTeamIndex = none) ∨
          (m.homeTeamIndex = none ∧ m.awayTeamIndex.isSome))),
      ∀ t ∈ ([m.homeTeamIndex, m.awayTeamIndex].filterMap id),
        t = 0 ∨ t = 1 ∨ t = 2) := by decide

/-- Counterexample for C5 as stated: there are indeed 3 bye matches, but
they are not all attached to team indices in `{0, 1}` — one bye belongs to
team index 2. -/
theorem singleElimination5_bye_at_seed_two :
    (((generateSingleElimination 5).«matches».filter (fun m =>
        m.round = 1 ∧ ((m.homeTeamIndex.isSome ∧ m.awayTeamIndex = none) ∨
          (m.homeTeamIndex = none ∧ m.awayTeamIndex.isSome)))).length = 3) ∧
    ¬ (∀ m ∈ (generateSingleElimination 5).«matches».filter (fun m =>
        m.round = 1 ∧ ((m.homeTeamIndex.isSome ∧ m.awayTeamIndex = none) ∨
          (m.homeTeamIndex = none ∧ m.awayTeamIndex.isSome))),
      ∀ t ∈ ([m.homeTeamIndex, m.awayTeamIndex].filterMap id),
        t = 0 ∨ t = 1) := by decide

/-- C8: `generateGroupKnockout 8 2 2` produces exactly 2 groups of 4 team
indices, exactly 12 group-stage matches, puts team indices 0 and 1 into
(distinct) groups that never share them, and appends exactly 3
knockout-stage matches — 2 semifinals and 1 final — after the 12
group-stage matches. -/
theorem groupKnockout_8_2_2 :
    (generateGroupKnockout 8 2 2).groups.length = 2 ∧
    (∀ ti ∈ (generateGroupKnockout 8 2 2).groups.map (fun g => g.teamIndices),
      ti.length = 4) ∧
    ((generateGroupKnockout 8 2 2).«matches».filter (fun m =>
      m.stage = MatchStage.GROUP)).length = 12 ∧
    (∃ ti ∈ (generateGroupKnockout 8 2 2).groups.map (fun g => g.teamIndices),
      0 ∈ ti) ∧
    (∃ ti ∈ (generateGroupKnockout 8 2 2).groups.map (fun g => g.teamIndices),
      1 ∈ ti) ∧
    (∀ ti ∈ (generateGroupKnockout 8 2 2).groups.map (fun g => g.teamIndices),
      ¬(0 ∈ ti ∧ 1 ∈ ti)) ∧
    ((generateGroupKnockout 8 2 2).«matches».filter (fun m =>
      m.stage ≠ MatchStage.GROUP)).length = 3 ∧
    ((generateGroupKnockout 8 2 2).«matches».filter (fun m =>
      m.stage = MatchStage.SEMIFINAL)).length = 2 ∧
    ((generateGroupKnockout 8 2 2).«matches».filter (fun m =>
      m.stage = MatchStage.FINAL)).length = 1 ∧
    (∀ m ∈ (generateGroupKnockout 8 2 2).«matches».drop 12,
      m.stage ≠ MatchStage.GROUP) := by decide

/-- Counterexample for C2 as stated: starting from a state whose period
arrays are empty, one successful `applyScore` followed by the matching
`undoScore` does not return the initial state exactly — `applyScore`
zero-pads both period arrays up to the current period, and the padding is
never removed. -/
theorem applyScore_undo_pads_arrays :
    (applyScore createVolleyballHandler
        { homeScore := 0, awayScore := 0, homePeriodScores := [],
          awayPeriodScores := [], currentPeriod := 1,
          status := MatchStatus.LIVE } TeamSide.HOME 1).valid = true ∧
    undoScore
        (applyScore createVolleyballHandler
          { homeScore := 0, awayScore := 0, homePeriodScores := [],
            awayPeriodScores := [], currentPeriod := 1,
            status := MatchStatus.LIVE } TeamSide.HOME 1).newState
        TeamSide.HOME 1 1 ≠
      { homeScore := 0, awayScore := 0, homePeriodScores := [],
        awayPeriodScores := [], currentPeriod := 1,
        status := MatchStatus.LIVE } := by decide

/-- Counterexample for C9 as stated: in a state with `currentPeriod = 0`
(below the schema minimum of 1), a successful `applyScore` increments the
side total without touching any period bucket (the JS bucket index is
`-1`), so the totals-equal-sums invariant is not preserved. -/
theorem applyScore_periodZero_breaks_sum :
    (applyScore createVolleyballHandler
        { homeScore := 0, awayScore := 0, homePeriodScores := [],
          awayPeriodScores := [], currentPeriod := 0,
          status := MatchStatus.LIVE } TeamSide.HOME 1).valid = true ∧
    (0 : Nat) = ([] : List Nat).sum ∧
    ¬ ((applyScore createVolleyballHandler
          { homeScore := 0, awayScore := 0, homePeriodScores := [],
            awayPeriodScores := [], currentPeriod := 0,
            status := MatchStatus.LIVE } TeamSide.HOME 1).newState.homeScore =
        (applyScore createVolleyballHandler
          { homeScore := 0, awayScore := 0, homePeriodScores := [],
            awayPeriodScores := [], currentPeriod := 0,
            status := MatchStatus.LIVE } TeamSide.HOME 1).newState.homePeriodScores.sum) := by
  decide

/-- Padding is the identity when the index is already in range. -/
theorem padTo_of_lt (l : List Nat) (k : Nat) (h : k < l.length) :
    padTo l (k : Int) = l := by
  have h0 : ¬((k : Int) < 0) := by omega
  simp only [padTo, h0, if_false]
  have hz : k + 1 - l.length = 0 := by omega
  simp [hz]

/-- In-range array read at a natural index. -/
theorem getIdx_nat (l : List Nat) (k : Nat) (h : k < l.length) :
    getIdx l (k : Int) = some (l.get ⟨k, h⟩) := by
  have h1 : (0 : Int) ≤ (k : Int) := by omega
  have h2 : (k : Int).toNat = k := by omega
  simp only [getIdx, h2]
  rw [dif_pos ⟨h1, h⟩]

/-- Array write at a natural index. -/
theorem setIdx_nat (l : List Nat) (k : Nat) (v : Nat) :
    setIdx l (k : Int) v = l.set k v := by
  have h1 : (0 : Int) ≤ (k : Int) := by omega
  have h2 : (k : Int).toNat = k := by omega
  simp [setIdx, h1, h2]

/-- Writing back the element already stored is the identity. -/
theorem set_get_self (l : List Nat) (i : Nat) (h : i < l.length) :
    l.set i (l.get ⟨i, h⟩) = l := by
  apply List.ext_getElem (by simp)
  intro n h1 h2
  rcases eq_or_ne n i with rfl | hne
  · simp
  · rw [List.getElem_set_ne (by omega)]

/-- The period index `currentPeriod - 1` at `currentPeriod = q + 1`. -/
theorem natCast_succ_sub_one (q : Nat) : ((q + 1 : Nat) : Int) - 1 = (q : Int) := by
  push_cast
  ring
/-- Padding with a negative target index is the identity. -/
theorem padTo_neg_one (l : List Nat) : padTo l (-1) = l := by
  simp [padTo]

/-- Reading at index `-1` is JS `undefined`. -/
theorem getIdx_neg_one (l : List Nat) : getIdx l (-1) = none := by
  simp [getIdx]

/-- A call reported valid passed `validateAction`. -/
theorem applyScore_valid_then (h : SportHandler) (s : MatchState)
    (side : TeamSide) (pts : Nat)
    (hv : (applyScore h s side pts).valid = true) :
    ¬((validateAction h.config s side pts).1 = false) := by
  intro hc
  unfold applyScore at hv
  rw [if_pos hc] at hv
  simp at hv

/-- Reading back a just-written cell. -/
theorem getIdx_set_self (l : List Nat) (k v : Nat) (h : k < l.length) :
    getIdx (l.set k v) (k : Int) = some v := by
  rw [getIdx_nat _ k (by simpa using h)]
  simp

/-- One successful `applyScore` whose state has period arrays covering the
current period is exactly inverted by `undoScore` with the same arguments,
and it preserves the period, the status and the array lengths. -/
theorem undo_applyScore_exact (h : SportHandler) (s : MatchState)
    (side : TeamSide) (pts : Nat)
    (hv : (applyScore h s side pts).valid = true)
    (hH : s.currentPeriod ≤ s.homePeriodScores.length)
    (hA : s.currentPeriod ≤ s.awayPeriodScores.length) :
    undoScore (applyScore h s side pts).newState side pts s.currentPeriod = s ∧
    (applyScore h s side pts).newState.currentPeriod = s.currentPeriod ∧
    (applyScore h s side pts).newState.status = s.status ∧
    (applyScore h s side pts).newState.homePeriodScores.length =
      s.homePeriodScores.length ∧
    (applyScore h s side pts).newState.awayPeriodScores.length =
      s.awayPeriodScores.length := by
  have hval := applyScore_valid_then h s side pts hv
  obtain ⟨hs, aw, hps, aps, cp, st⟩ := s
  unfold applyScore
  rw [if_neg hval]
  simp only at hH hA ⊢
  rcases cp with _ | q
  · have hneg : ((0 : Nat) : Int) - 1 = (-1 : Int) := by decide
    cases side <;>
      simp only [hneg, padTo_neg_one, getIdx_neg_one, undoScore] <;>
      refine ⟨?_, by trivial, by trivial, by trivial, by trivial⟩ <;>
      simp [Nat.add_sub_cancel]
  · have hq : q < hps.length := by omega
    have ha : q < aps.length := by omega
    have hcast := natCast_succ_sub_one q
    cases side
    · simp only [hcast, padTo_of_lt hps q hq, padTo_of_lt aps q ha,
        getIdx_nat hps q hq, setIdx_nat, undoScore]
      have hq' : q < (hps.set q (hps.get ⟨q, hq⟩ + pts)).length := by
        simp [hq]
      refine ⟨?_, by trivial, by trivial, by simp, by trivial⟩
      simp only [hcast, getIdx_set_self hps q (hps[q] + pts) hq, setIdx_nat,
        List.get_eq_getElem, List.set_set, Nat.add_sub_cancel]
      rw [show hps.set q hps[q] = hps by simpa using set_get_self hps q hq]
    · simp only [hcast, padTo_of_lt hps q hq, padTo_of_lt aps q ha,
        getIdx_nat aps q ha, setIdx_nat, undoScore]
      have ha' : q < (aps.set q (aps.get ⟨q, ha⟩ + pts)).length := by
        simp [ha]
      refine ⟨?_, by trivial, by trivial, by trivial, by simp⟩
      simp only [hcast, getIdx_set_self aps q (aps[q] + pts) ha, setIdx_nat,
        List.get_eq_getElem, List.set_set, Nat.add_sub_cancel]
      rw [show aps.set q aps[q] = aps by simpa using set_get_self aps q ha]
/-- `undoSeq` splits over list append. -/
theorem undoSeq_append (s : MatchState) (l1 l2 : List (TeamSide × Nat × Nat)) :
    undoSeq s (l1 ++ l2) = undoSeq (undoSeq s l1) l2 := by
  induction l1 generalizing s with
  | nil => rfl
  | cons u t ih =>
    simp only [List.cons_append, undoSeq]
    exact ih _

/-- C2 (amended): for any match state whose period-score arrays both have
at least `currentPeriod` entries, any sequence of successful `applyScore`
calls followed by `undoScore` calls with the same
`(teamSide, points, period-at-time-of-application)` arguments in reverse
order returns exactly the initial state (`applyScore` never changes
`currentPeriod`, so the recorded period of every call is
`s0.currentPeriod`).  Without the length proviso, `applyScore` zero-pads
the arrays and the padding survives the undos. -/
theorem applySeq_undoSeq_reverse_exact (h : SportHandler) (s0 : MatchState)
    (actions : List (TeamSide × Nat))
    (hvalid : allAppliesValid h s0 actions = true)
    (hH : s0.currentPeriod ≤ s0.homePeriodScores.length)
    (hA : s0.currentPeriod ≤ s0.awayPeriodScores.length) :
    undoSeq (applySeq h s0 actions)
      (actions.reverse.map (fun a => (a.1, a.2, s0.currentPeriod))) = s0 := by
  induction actions generalizing s0 with
  | nil => rfl
  | cons a rest ih =>
    have hsplit : allAppliesValid h s0 (a :: rest) =
        ((applyScore h s0 a.1 a.2).valid &&
          allAppliesValid h (applyScore h s0 a.1 a.2).newState rest) := rfl
    rw [hsplit, Bool.and_eq_true] at hvalid
    obtain ⟨hv1, hrest⟩ := hvalid
    obtain ⟨hroundtrip, hcp, _, hlenH, hlenA⟩ :=
      undo_applyScore_exact h s0 a.1 a.2 hv1 hH hA
    have happly : applySeq h s0 (a :: rest) =
        applySeq h (applyScore h s0 a.1 a.2).newState rest := rfl
    have hmap : ((a :: rest).reverse.map
        (fun a => (a.1, a.2, s0.currentPeriod))) =
        (rest.reverse.map (fun a => (a.1, a.2, s0.currentPeriod))) ++
          [(a.1, a.2, s0.currentPeriod)] := by
      simp
    rw [happly, hmap, undoSeq_append]
    have ihspec := ih (applyScore h s0 a.1 a.2).newState hrest
      (by rw [hcp]; omega) (by rw [hcp]; omega)
    rw [hcp] at ihspec
    rw [ihspec]
    show undoScore _ a.1 a.2 s0.currentPeriod = s0
    exact hroundtrip

/-- Witness for C2 (amended): score home then away from 0–0 in period 1,
undo both in reverse order, and the initial state returns exactly. -/
theorem applySeq_undoSeq_reverse_exact_witness :
    undoSeq
      (applySeq createVolleyballHandler
        { homeScore := 0, awayScore := 0, homePeriodScores := [0],
          awayPeriodScores := [0], currentPeriod := 1,
          status := MatchStatus.LIVE } [(TeamSide.HOME, 1), (TeamSide.AWAY, 1)])
      ([(TeamSide.HOME, 1), (TeamSide.AWAY, 1)].reverse.map
        (fun a => (a.1, a.2, 1))) =
      { homeScore := 0, awayScore := 0, homePeriodScores := [0],
        awayPeriodScores := [0], currentPeriod := 1,
        status := MatchStatus.LIVE } :=
  applySeq_undoSeq_reverse_exact createVolleyballHandler _ _
    (by decide) (by decide) (by decide)

/-- Zero padding does not change the array sum. -/
theorem padTo_sum (l : List Nat) (k : Nat) : (padTo l (k : Int)).sum = l.sum := by
  have h0 : ¬((k : Int) < 0) := by omega
  simp [padTo, h0]

/-- After padding, the target index is in range. -/
theorem padTo_length_gt (l : List Nat) (k : Nat) : k < (padTo l (k : Int)).length := by
  have h0 : ¬((k : Int) < 0) := by omega
  simp only [padTo, h0, if_false, List.length_append, List.length_replicate]
  have h2 : (k : Int).toNat = k := by omega
  omega

/-- Adding `p` to one cell adds `p` to the sum. -/
theorem sum_set_add (l : List Nat) (i : Nat) (p : Nat) (h : i < l.length) :
    (l.set i (l.get ⟨i, h⟩ + p)).sum = l.sum + p := by
  induction l generalizing i with
  | nil => simp at h
  | cons a t ih =>
    cases i with
    | zero =>
      simp only [List.set, List.get, List.sum_cons]
      omega
    | succ n =>
      have hn : n < t.length := by simpa using h
      simp only [List.set, List.get, List.sum_cons, ih n hn]
      omega

/-- C9 (amended): for every match state with `currentPeriod ≥ 1` (the
match schema constrains `currentPeriod` to be positive) in which each
side's total equals the sum of that side's period-score array, the state
returned by `applyScore` (valid or not) and the state returned by
`nextPeriod` satisfy the same equality for both sides.  At
`currentPeriod = 0` the source adds to the total but to no bucket (JS
index `-1`), breaking the invariant. -/
theorem applyScore_nextPeriod_preserve_sum (h : SportHandler) (s : MatchState)
    (side : TeamSide) (points : Nat)
    (hcp : 1 ≤ s.currentPeriod)
    (hH : s.homeScore = s.homePeriodScores.sum)
    (hA : s.awayScore = s.awayPeriodScores.sum) :
    ((applyScore h s side points).newState.homeScore =
        (applyScore h s side points).newState.homePeriodScores.sum ∧
      (applyScore h s side points).newState.awayScore =
        (applyScore h s side points).newState.awayPeriodScores.sum) ∧
    ((nextPeriod h.config s).homeScore =
        (nextPeriod h.config s).homePeriodScores.sum ∧
      (nextPeriod h.config s).awayScore =
        (nextPeriod h.config s).awayPeriodScores.sum) := by
  constructor
  · obtain ⟨q, hq⟩ : ∃ q, s.currentPeriod = q + 1 :=
      ⟨s.currentPeriod - 1, by omega⟩
    obtain ⟨hs, aw, hps, aps, cp, st⟩ := s
    simp only at hH hA hq
    subst hq
    unfold applyScore
    by_cases hval : (validateAction h.config
        ⟨hs, aw, hps, aps, q + 1, st⟩ side points).1 = false
    · rw [if_pos hval]
      exact ⟨hH, hA⟩
    · rw [if_neg hval]
      have hcast := natCast_succ_sub_one q
      have hlenH := padTo_length_gt hps q
      have hlenA := padTo_length_gt aps q
      cases side
      · simp only [hcast, getIdx_nat _ q hlenH, setIdx_nat,
          List.get_eq_getElem]
        refine ⟨?_, by simpa [padTo_sum] using hA⟩
        have := sum_set_add (padTo hps (q : Int)) q points hlenH
        simp only [List.get_eq_getElem] at this
        rw [this, padTo_sum, hH]
      · simp only [hcast, getIdx_nat _ q hlenA, setIdx_nat,
          List.get_eq_getElem]
        refine ⟨by simpa [padTo_sum] using hH, ?_⟩
        have := sum_set_add (padTo aps (q : Int)) q points hlenA
        simp only [List.get_eq_getElem] at this
        rw [this, padTo_sum, hA]
  · unfold nextPeriod
    split_ifs with hcap
    · exact ⟨hH, hA⟩
    · constructor <;> simp [hH, hA]

/-- Witness for C9 (amended): one point for home from an initial 0–0
state in period 1 keeps total = sum of buckets. -/
theorem applyScore_nextPeriod_preserve_sum_witness :
    ((applyScore createVolleyballHandler
        { homeScore := 0, awayScore := 0, homePeriodScores := [],
          awayPeriodScores := [], currentPeriod := 1,
          status := MatchStatus.LIVE } TeamSide.HOME 1).newState.homeScore =
      (applyScore createVolleyballHandler
        { homeScore := 0, awayScore := 0, homePeriodScores := [],
          awayPeriodScores := [], currentPeriod := 1,
          status := MatchStatus.LIVE } TeamSide.HOME 1).newState.homePeriodScores.sum) :=
  (applyScore_nextPeriod_preserve_sum createVolleyballHandler _
    TeamSide.HOME 1 (by decide) (by decide) (by decide)).1.1

/-- Expansion doubles the length. -/
theorem expandSeeds_length (c : Nat) (l : List Nat) :
    (expandSeeds c l).length = 2 * l.length := by
  induction l with
  | nil => rfl
  | cons s t ih => simp [expandSeeds, ih]; ring

/-- Even slots of the expansion hold the smaller bracket in order. -/
theorem expandSeeds_get?_even (c : Nat) (l : List Nat) (j : Nat) :
    (expandSeeds c l).get? (2 * j) = l.get? j := by
  induction l generalizing j with
  | nil => simp [expandSeeds]
  | cons s t ih =>
    cases j with
    | zero => rfl
    | succ j' =>
      have h2 : 2 * (j' + 1) = (2 * j') + 1 + 1 := by ring
      rw [h2]
      simpa [expandSeeds] using ih j'

/-- Odd slots hold the mirrored seeds `size - 1 - s`. -/
theorem expandSeeds_get?_odd (c : Nat) (l : List Nat) (j : Nat) :
    (expandSeeds c l).get? (2 * j + 1) = (l.get? j).map (fun s => c - 1 - s) := by
  induction l generalizing j with
  | nil => simp [expandSeeds]
  | cons s t ih =>
    cases j with
    | zero => rfl
    | succ j' =>
      have h2 : 2 * (j' + 1) + 1 = (2 * j' + 1) + 1 + 1 := by ring
      rw [h2]
      simpa [expandSeeds] using ih j'

/-- Membership in an expansion. -/
theorem expandSeeds_mem (c : Nat) (l : List Nat) (x : Nat) :
    x ∈ expandSeeds c l ↔ (∃ s ∈ l, x = s ∨ x = c - 1 - s) := by
  induction l with
  | nil => simp [expandSeeds]
  | cons s t ih =>
    simp only [expandSeeds, List.mem_cons, ih]
    constructor
    · rintro (rfl | rfl | ⟨u, hu, hx⟩)
      · exact ⟨x, Or.inl rfl, Or.inl rfl⟩
      · exact ⟨s, Or.inl rfl, Or.inr rfl⟩
      · exact ⟨u, Or.inr hu, hx⟩
    · rintro ⟨u, hu, hx⟩
      rcases hu with rfl | hu
      · rcases hx with rfl | rfl
        · exact Or.inl rfl
        · exact Or.inr (Or.inl rfl)
      · exact Or.inr (Or.inr ⟨u, hu, hx⟩)

/-- The seeding order for exponent `k` lists `2 ^ k` slots. -/
theorem generateSeededBracket_length : ∀ k, (generateSeededBracket k).length = 2 ^ k
  | 0 => rfl
  | 1 => rfl
  | (k + 2) => by
    show (expandSeeds (2 ^ (k + 2)) (generateSeededBracket (k + 1))).length = _
    rw [expandSeeds_length, generateSeededBracket_length (k + 1)]
    ring

/-- Every entry of the seeding order is a seed index below the size. -/
theorem generateSeededBracket_mem_lt :
    ∀ k, ∀ x ∈ generateSeededBracket k, x < 2 ^ k
  | 0 => by intro x hx; simp [generateSeededBracket] at hx; omega
  | 1 => by intro x hx; simp [generateSeededBracket] at hx; rcases hx with rfl | rfl <;> omega
  | (k + 2) => by
    intro x hx
    have hx' : x ∈ expandSeeds (2 ^ (k + 2)) (generateSeededBracket (k + 1)) := hx
    rw [expandSeeds_mem] at hx'
    obtain ⟨s, hs, hxx⟩ := hx'
    rcases hxx with rfl | rfl
    · have := generateSeededBracket_mem_lt (k + 1) x hs
      have h2 : (2 : Nat) ^ (k + 1) < 2 ^ (k + 2) := by
        have hpos : 0 < (2 : Nat) ^ (k + 1) := by positivity
        calc (2 : Nat) ^ (k + 1) < 2 ^ (k + 1) * 2 := by omega
        _ = 2 ^ (k + 2) := by ring
      omega
    · have hpos : 0 < (2 : Nat) ^ (k + 2) := by positivity
      omega

/-- Seed 0 occupies slot 0. -/
theorem generateSeededBracket_get?_zero :
    ∀ k, (generateSeededBracket k).get? 0 = some 0
  | 0 => rfl
  | 1 => rfl
  | (k + 2) => by
    show (expandSeeds (2 ^ (k + 2)) (generateSeededBracket (k + 1))).get? 0 = some 0
    have h := expandSeeds_get?_even (2 ^ (k + 2)) (generateSeededBracket (k + 1)) 0
    simpa using h.trans (generateSeededBracket_get?_zero (k + 1))

/-- Seed 1 occupies the first slot of the second half. -/
theorem generateSeededBracket_get?_half :
    ∀ k, 1 ≤ k → (generateSeededBracket k).get? (2 ^ (k - 1)) = some 1
  | 0, h => absurd h (by omega)
  | 1, _ => rfl
  | (k + 2), _ => by
    show (expandSeeds (2 ^ (k + 2)) (generateSeededBracket (k + 1))).get?
      (2 ^ (k + 1)) = some 1
    have h2 : (2 : Nat) ^ (k + 1) = 2 * 2 ^ k := by ring
    rw [h2, expandSeeds_get?_even]
    have := generateSeededBracket_get?_half (k + 1) (by omega)
    simpa using this

/-- Slot 0 is the only slot holding seed 0. -/
theorem generateSeededBracket_zero_unique :
    ∀ k, ∀ j, (generateSeededBracket k).get? j = some 0 → j = 0
  | 0 => by
    intro j hj
    cases j with
    | zero => rfl
    | succ j' => simp [generateSeededBracket] at hj
  | 1 => by
    intro j hj
    match j, hj with
    | 0, _ => rfl
    | 1, hj => simp [generateSeededBracket] at hj
    | (j + 2), hj => simp [generateSeededBracket] at hj
  | (k + 2) => by
    intro j hj
    have hj' : (expandSeeds (2 ^ (k + 2)) (generateSeededBracket (k + 1))).get? j
        = some 0 := hj
    rcases Nat.even_or_odd j with ⟨j', rfl⟩ | ⟨j', rfl⟩
    · have hjj : j' + j' = 2 * j' := by ring
      rw [hjj, expandSeeds_get?_even] at hj'
      have := generateSeededBracket_zero_unique (k + 1) j' hj'
      omega
    · rw [expandSeeds_get?_odd] at hj'
      obtain ⟨s, hs, hval⟩ := Option.map_eq_some'.mp hj'
      have hmem : s ∈ generateSeededBracket (k + 1) := List.get?_mem hs
      have hlt := generateSeededBracket_mem_lt (k + 1) s hmem
      have h2 : (2 : Nat) ^ (k + 2) = 2 * 2 ^ (k + 1) := by ring
      have hpos : 0 < (2 : Nat) ^ (k + 1) := by positivity
      omega

/-- Slot `2 ^ (k - 1)` is the only slot holding seed 1. -/
theorem generateSeededBracket_one_unique :
    ∀ k, 1 ≤ k → ∀ j, (generateSeededBracket k).get? j = some 1 →
      j = 2 ^ (k - 1)
  | 0, h => absurd h (by omega)
  | 1, _ => by
    intro j hj
    match j, hj with
    | 0, hj => simp [generateSeededBracket] at hj
    | 1, _ => rfl
    | (j + 2), hj => simp [generateSeededBracket] at hj
  | (k + 2), _ => by
    intro j hj
    have hj' : (expandSeeds (2 ^ (k + 2)) (generateSeededBracket (k + 1))).get? j
        = some 1 := hj
    rcases Nat.even_or_odd j with ⟨j', rfl⟩ | ⟨j', rfl⟩
    · have hjj : j' + j' = 2 * j' := by ring
      rw [hjj, expandSeeds_get?_even] at hj'
      have := generateSeededBracket_one_unique (k + 1) (by omega) j' hj'
      have h2 : (2 : Nat) ^ (k + 1 - 1) = 2 ^ k := by norm_num
      have h3 : (2 : Nat) ^ (k + 2 - 1) = 2 * 2 ^ k := by
        have : k + 2 - 1 = k + 1 := by omega
        rw [this]; ring
      omega
    · rw [expandSeeds_get?_odd] at hj'
      obtain ⟨s, hs, hval⟩ := Option.map_eq_some'.mp hj'
      have hmem : s ∈ generateSeededBracket (k + 1) := List.get?_mem hs
      have hlt := generateSeededBracket_mem_lt (k + 1) s hmem
      have h2 : (2 : Nat) ^ (k + 2) = 2 * 2 ^ (k + 1) := by ring
      have hpos : 2 ≤ 2 ^ (k + 1) := by
        calc (2 : Nat) = 2 ^ 1 := by norm_num
        _ ≤ 2 ^ (k + 1) := Nat.pow_le_pow_right (by omega) (by omega)
      omega
/-- `find?` over `range'` returns the least satisfying value when it lies
in the scanned interval. -/
theorem find?_range'_eq {p : Nat → Bool} (c : Nat) (hc : p c = true) :
    ∀ (len s : Nat), (∀ j, s ≤ j → j < c → p j = false) → s ≤ c →
      c < s + len → (List.range' s len).find? p = some c
  | 0, s => by intro _ _ h; omega
  | (len + 1), s => by
    intro hmin hsc hlt
    rcases eq_or_lt_of_le hsc with rfl | hlt'
    · simp only [List.range']
      exact List.find?_cons_of_pos _ hc
    · have hps : p s = false := hmin s le_rfl hlt'
      simp only [List.range']
      rw [List.find?_cons_of_neg _ (by simp [hps])]
      exact find?_range'_eq c hc len (s + 1)
        (fun j h1 h2 => hmin j (by omega) h2) (by omega) (by omega)

/-- `ceilLog2` agrees with the ceiling base-2 logarithm `Nat.clog 2`. -/
theorem ceilLog2_eq_clog (n : Nat) : ceilLog2 n = Nat.clog 2 n := by
  rcases Nat.eq_zero_or_pos n with rfl | hn
  · rw [Nat.clog_zero_right]
    rfl
  · have h1 : n ≤ 2 ^ Nat.clog 2 n := Nat.le_pow_clog (by omega) n
    have h3 : Nat.clog 2 n ≤ n := by
      calc Nat.clog 2 n ≤ Nat.clog 2 (2 ^ n) :=
        Nat.clog_mono_right 2 (le_of_lt (Nat.lt_two_pow n))
      _ = n := Nat.clog_pow 2 n (by omega)
    unfold ceilLog2
    rw [List.range_eq_range']
    rw [find?_range'_eq (Nat.clog 2 n) (by simpa using h1) (n + 1) 0
      (fun j _ hj => by
        simp only [decide_eq_false_iff_not]
        intro hle
        exact absurd ((Nat.le_pow_iff_clog_le (by omega)).mp hle) (by omega))
      (by omega) (by omega)]
    rfl

/-- At least two rounds exist from 3 teams on; in particular the exponent
is positive. -/
theorem ceilLog2_pos (n : Nat) (hn : 3 ≤ n) : 1 ≤ ceilLog2 n := by
  rw [ceilLog2_eq_clog]
  have h1 : n ≤ 2 ^ Nat.clog 2 n := Nat.le_pow_clog (by omega) n
  rcases Nat.eq_zero_or_pos (Nat.clog 2 n) with h0 | h
  · rw [h0] at h1
    norm_num at h1
    omega
  · exact h

/-- The first-round loop bound: half the bracket size. -/
theorem two_pow_succ_half (k : Nat) (hk : 1 ≤ k) :
    (2 ^ k + 1) / 2 = 2 ^ (k - 1) := by
  obtain ⟨j, rfl⟩ : ∃ j, k = j + 1 := ⟨k - 1, by omega⟩
  have h : (2 : Nat) ^ (j + 1) = 2 * 2 ^ j := by ring
  rw [h]
  simp
  omega

/-- Renumbering only rewrites `matchNumber`. -/
theorem renumber_get? (ms : List GeneratedMatch) (i : Nat) :
    (renumber ms).get? i =
      (ms.get? i).map (fun m => { m with matchNumber := i + 1 }) := by
  unfold renumber
  rw [List.get?_map, List.get?_enum]
  cases ms.get? i <;> rfl
/-- C3: for every `teamCount ≥ 3`, `generateSingleElimination` builds its
round-1 pairings from the recursive seeding order `generateSeededBracket`
(slots `2i` and `2i+1` feed round-1 match `i`); team index 0 sits in slot
0 and team index 1 in slot `bracketSize / 2` and nowhere else, so they are
in opposite halves of the bracket; and since slots `j`, `j'` can meet in
round `r` of a `2 ^ k`-slot single-elimination bracket only when
`j / 2 ^ r = j' / 2 ^ r`, the slots of teams 0 and 1 disagree at every
round before the final (`r < k`): they cannot meet before the final. -/
theorem singleElimination_seeding (n : Nat) (hn : 3 ≤ n) :
    (∀ i < 2 ^ (ceilLog2 n - 1),
      ∃ m : GeneratedMatch,
        (generateSingleElimination n).«matches».get? i = some m ∧
        m.round = 1 ∧
        m.homeTeamIndex =
          (match (generateSeededBracket (ceilLog2 n)).get? (2 * i) with
            | some p => if p < n then some p else none
            | none => none) ∧
        m.awayTeamIndex =
          (match (generateSeededBracket (ceilLog2 n)).get? (2 * i + 1) with
            | some p => if p < n then some p else none
            | none => none)) ∧
    (generateSeededBracket (ceilLog2 n)).get? 0 = some 0 ∧
    (generateSeededBracket (ceilLog2 n)).get? (2 ^ (ceilLog2 n - 1)) = some 1 ∧
    (∀ j, (generateSeededBracket (ceilLog2 n)).get? j = some 0 → j = 0) ∧
    (∀ j, (generateSeededBracket (ceilLog2 n)).get? j = some 1 →
      j = 2 ^ (ceilLog2 n - 1)) ∧
    (∀ j0 j1, (generateSeededBracket (ceilLog2 n)).get? j0 = some 0 →
      (generateSeededBracket (ceilLog2 n)).get? j1 = some 1 →
      ∀ r < ceilLog2 n, j0 / 2 ^ r ≠ j1 / 2 ^ r) := by
  have hk1 : 1 ≤ ceilLog2 n := ceilLog2_pos n hn
  refine ⟨?_, generateSeededBracket_get?_zero _,
    generateSeededBracket_get?_half _ hk1,
    generateSeededBracket_zero_unique _,
    generateSeededBracket_one_unique _ hk1, ?_⟩
  · intro i hi
    have hn0 : ¬(n = 0) := by omega
    have hL : (2 ^ ceilLog2 n + 1) / 2 = 2 ^ (ceilLog2 n - 1) :=
      two_pow_succ_half _ hk1
    simp only [generateSingleElimination, if_neg hn0]
    rw [hL, renumber_get?]
    rw [List.get?_append (by simpa using hi)]
    rw [List.get?_map, List.get?_range hi]
    exact ⟨_, rfl, rfl, rfl, rfl⟩
  · intro j0 j1 h0 h1 r hr
    have hj0 := generateSeededBracket_zero_unique _ j0 h0
    have hj1 := generateSeededBracket_one_unique _ hk1 j1 h1
    subst hj0
    rw [hj1]
    have hz : (0 : Nat) / 2 ^ r = 0 := Nat.zero_div _
    have hge : 1 ≤ 2 ^ (ceilLog2 n - 1) / 2 ^ r := by
      rw [Nat.one_le_div_iff (by positivity)]
      exact Nat.pow_le_pow_right (by omega) (by omega)
    omega

/-- Witness for C3 at `teamCount = 5`: seed 0 in slot 0, seed 1 at the
start of the second half. -/
theorem singleElimination_seeding_witness :
    (generateSeededBracket (ceilLog2 5)).get? 0 = some 0 ∧
    (generateSeededBracket (ceilLog2 5)).get? (2 ^ (ceilLog2 5 - 1)) = some 1 :=
  ⟨(singleElimination_seeding 5 (by omega)).2.1,
   (singleElimination_seeding 5 (by omega)).2.2.1⟩

theorem drop_length_sub_one {α : Type} :
    ∀ (l : List α) (h : l ≠ []), l.drop (l.length - 1) = [l.getLast h]
  | [a], _ => rfl
  | a :: b :: t, _ => by
    have ih := drop_length_sub_one (b :: t) (by simp)
    simp only [List.length_cons] at ih ⊢
    have h1 : b :: t ≠ [] := by simp
    rw [List.getLast_cons h1]
    have h2 : t.length + 1 + 1 - 1 = (t.length + 1 - 1) + 1 := by omega
    rw [h2]
    simpa using ih

theorem rotateOnce_cons (a : Int) (tl : List Int) (h : tl ≠ []) :
    rotateOnce (a :: tl) = a :: tl.rotate (tl.length - 1) := by
  obtain ⟨b, t, rfl⟩ : ∃ b t, tl = b :: t := by
    cases tl with
    | nil => exact absurd rfl h
    | cons b t => exact ⟨b, t, rfl⟩
  have hred : rotateOnce (a :: b :: t) =
      match (b :: t).getLast? with
      | none => [a]
      | some last => a :: last :: (b :: t).dropLast := rfl
  rw [hred, List.getLast?_eq_getLast (b :: t) (by simp)]
  rw [List.rotate_eq_drop_append_take (by simp)]
  rw [drop_length_sub_one (b :: t) (by simp), ← List.dropLast_eq_take]
  rfl

theorem rotIter_cons (a : Int) :
    ∀ (r : Nat) (tl : List Int), tl ≠ [] →
      rotIter r (a :: tl) = a :: tl.rotate (r * (tl.length - 1))
  | 0, tl, _ => by simp [rotIter]
  | r + 1, tl, h => by
    show rotIter r (rotateOnce (a :: tl)) = _
    rw [rotateOnce_cons a tl h]
    have hne : tl.rotate (tl.length - 1) ≠ [] := by
      intro hc
      have := congrArg List.length hc
      simp at this
      exact h this
    rw [rotIter_cons a r _ hne]
    rw [List.rotate_rotate, List.length_rotate]
    congr 1
    ring

theorem rrRounds_eq_map : ∀ (cnt : Nat) (l : List Int),
    rrRounds l cnt = (List.range cnt).map (fun r => roundMatchesRaw (rotIter r l))
  | 0, l => rfl
  | cnt + 1, l => by
    show roundMatchesRaw l :: rrRounds (rotateOnce l) cnt = _
    rw [rrRounds_eq_map cnt (rotateOnce l), List.range_succ_eq_map]
    simp only [List.map_cons, List.map_map]
    rfl

theorem filterMap_eq_filter_map {α β : Type} (f : α → Option β) (g : α → β)
    (p : β → Bool) :
    ∀ l : List α, (∀ x ∈ l, f x = if p (g x) then some (g x) else none) →
      l.filterMap f = (l.map g).filter p
  | [], _ => rfl
  | a :: t, h => by
    have ha := h a (by simp)
    have ih := filterMap_eq_filter_map f g p t (fun x hx => h x (by simp [hx]))
    by_cases hp : p (g a)
    · rw [List.filterMap_cons, List.map_cons, List.filter_cons]
      rw [ha, if_pos hp, if_pos hp, ih]
    · rw [List.filterMap_cons, List.map_cons, List.filter_cons]
      rw [ha, if_neg hp, if_neg hp, ih]

theorem rrN_even (t : Nat) : rrN t % 2 = 0 := by
  unfold rrN
  split_ifs with h <;> omega

theorem rrM_odd (t : Nat) (ht : 2 ≤ t) : rrM t % 2 = 1 := by
  have := rrN_even t
  unfold rrM rrN at *
  split_ifs at * <;> omega

theorem rrM_pos (t : Nat) (ht : 2 ≤ t) : 1 ≤ rrM t := by
  unfold rrM rrN
  split_ifs <;> omega

theorem rrPhi_lt (t r q : Nat) (ht : 2 ≤ t) : rrPhi t r q < rrM t :=
  Nat.mod_lt _ (rrM_pos t ht)

theorem rrPhi_inj (t r : Nat) (ht : 2 ≤ t) {q1 q2 : Nat}
    (h1 : q1 < rrM t) (h2 : q2 < rrM t)
    (h : rrPhi t r q1 = rrPhi t r q2) : q1 = q2 := by
  have hm := rrM_pos t ht
  unfold rrPhi at h
  have hmod : q1 ≡ q2 [MOD rrM t] :=
    (Nat.ModEq.add_right_cancel rfl
      (show q1 + r * (rrM t - 1) ≡ q2 + r * (rrM t - 1) [MOD rrM t] from h))
  calc q1 = q1 % rrM t := (Nat.mod_eq_of_lt h1).symm
  _ = q2 % rrM t := hmod
  _ = q2 := Nat.mod_eq_of_lt h2

theorem rrPhi_surj (t r y : Nat) (ht : 2 ≤ t) (hy : y < rrM t) :
    ∃ q, q < rrM t ∧ rrPhi t r q = y := by
  have hm := rrM_pos t ht
  set c := (r * (rrM t - 1)) % rrM t with hc
  have hclt : c < rrM t := Nat.mod_lt _ hm
  refine ⟨(y + (rrM t - c)) % rrM t, Nat.mod_lt _ hm, ?_⟩
  unfold rrPhi
  rw [Nat.mod_add_mod]
  have h1 : y + (rrM t - c) + r * (rrM t - 1) ≡ y + (rrM t - c) + c [MOD rrM t] :=
    Nat.ModEq.add_left _ (Nat.mod_modEq _ _).symm
  have h2 : y + (rrM t - c) + c = y + rrM t := by omega
  calc (y + (rrM t - c) + r * (rrM t - 1)) % rrM t
      = (y + (rrM t - c) + c) % rrM t := h1
  _ = (y + rrM t) % rrM t := by rw [h2]
  _ = y % rrM t := Nat.add_mod_right y (rrM t)
  _ = y := Nat.mod_eq_of_lt hy

theorem rrM_coprime_pred (t : Nat) (ht : 2 ≤ t) :
    Nat.gcd (rrM t) (rrM t - 1) = 1 := by
  have hm := rrM_pos t ht
  rw [Nat.gcd_self_sub_right hm, Nat.gcd_one_right]

theorem rrM_coprime_two (t : Nat) (ht : 2 ≤ t) :
    Nat.gcd (rrM t) 2 = 1 := by
  have hodd : Odd (rrM t) := Nat.odd_iff.mpr (rrM_odd t ht)
  exact (Nat.coprime_two_right.mpr hodd).gcd_eq_one

theorem rrRound_eq_of_mul (t : Nat) (ht : 2 ≤ t) {r1 r2 : Nat}
    (hr1 : r1 < rrM t) (hr2 : r2 < rrM t)
    (h : r1 * (rrM t - 1) ≡ r2 * (rrM t - 1) [MOD rrM t]) : r1 = r2 := by
  have h1 : r1 ≡ r2 [MOD rrM t] :=
    Nat.ModEq.cancel_right_of_coprime (rrM_coprime_pred t ht) h
  calc r1 = r1 % rrM t := (Nat.mod_eq_of_lt hr1).symm
  _ = r2 % rrM t := h1
  _ = r2 := Nat.mod_eq_of_lt hr2

theorem rrRound_eq_of_two_mul (t : Nat) (ht : 2 ≤ t) {r1 r2 : Nat}
    (hr1 : r1 < rrM t) (hr2 : r2 < rrM t)
    (h : 2 * (r1 * (rrM t - 1)) ≡ 2 * (r2 * (rrM t - 1)) [MOD rrM t]) :
    r1 = r2 := by
  have h1 : r1 * (rrM t - 1) ≡ r2 * (rrM t - 1) [MOD rrM t] :=
    Nat.ModEq.cancel_left_of_coprime (rrM_coprime_two t ht) h
  exact rrRound_eq_of_mul t ht hr1 hr2 h1

theorem rrList_length (t : Nat) : (rrList t).length = rrN t := by
  unfold rrList rrN
  split_ifs <;> simp

theorem rrList_get? (t : Nat) (p : Nat) (hp : p < rrN t) :
    (rrList t).get? p = some (rrVal t p) := by
  have hrrN : rrN t = if t % 2 = 1 then t + 1 else t := rfl
  by_cases ho : t % 2 = 1
  · rcases Nat.lt_or_ge p t with hpt | hpt
    · have hL : rrList t = (List.range t).map (fun i => Int.ofNat i) ++ [-1] := by
        unfold rrList
        rw [if_pos ho]
      rw [hL, List.get?_append (by simpa using hpt), List.get?_map,
        List.get?_range hpt]
      unfold rrVal
      rw [if_pos hpt]
      simp [Int.ofNat_eq_natCast]
    · have hpt' : p = t := by
        rw [hrrN, if_pos ho] at hp
        omega
      subst hpt'
      have hL : rrList p = (List.range p).map (fun i => Int.ofNat i) ++ [-1] := by
        unfold rrList
        rw [if_pos ho]
      rw [hL, List.get?_append_right (by simp)]
      unfold rrVal
      rw [if_neg (by omega)]
      simp
  · have hpt : p < t := by
      rw [hrrN, if_neg ho] at hp
      exact hp
    have hL : rrList t = (List.range t).map (fun i => Int.ofNat i) := by
      unfold rrList
      rw [if_neg ho]
    rw [hL, List.get?_map, List.get?_range hpt]
    unfold rrVal
    rw [if_pos hpt]
    simp [Int.ofNat_eq_natCast]

theorem rrList_cons (t : Nat) (ht : 2 ≤ t) :
    rrList t = rrVal t 0 :: rrTail t := by
  have h0 : (rrList t).get? 0 = some (rrVal t 0) := by
    apply rrList_get?
    unfold rrN
    split_ifs <;> omega
  cases hL : rrList t with
  | nil => rw [hL] at h0; simp at h0
  | cons a l =>
    rw [hL] at h0
    simp only [List.get?] at h0
    unfold rrTail
    rw [hL]
    simp only [List.tail_cons]
    congr 1
    exact (Option.some.injEq _ _).mp h0

theorem rrTail_length (t : Nat) (ht : 2 ≤ t) : (rrTail t).length = rrM t := by
  unfold rrTail rrM
  rw [List.length_tail, rrList_length]

theorem rrTail_get? (t : Nat) (q : Nat) (ht : 2 ≤ t) (hq : q < rrM t) :
    (rrTail t).get? q = some (rrVal t (q + 1)) := by
  unfold rrTail
  have htt : (rrList t).tail.get? q = (rrList t).get? (q + 1) := by
    cases hL : rrList t with
    | nil =>
      have hlen := rrList_length t
      rw [hL] at hlen
      unfold rrN at hlen
      have := rrM_pos t ht
      unfold rrM rrN at this
      split_ifs at * <;> simp at hlen <;> omega
    | cons a l => simp
  rw [htt]
  apply rrList_get?
  unfold rrM at hq
  omega

theorem rotIter_rrList (t r : Nat) (ht : 2 ≤ t) :
    rotIter r (rrList t) =
      rrVal t 0 :: (rrTail t).rotate (r * (rrM t - 1)) := by
  rw [rrList_cons t ht]
  rw [rotIter_cons _ r _ (by
    intro hc
    have hlen := rrTail_length t ht
    rw [hc] at hlen
    have := rrM_pos t ht
    simp at hlen
    omega)]
  rw [rrTail_length t ht]

theorem rotTail_get? (t r q : Nat) (ht : 2 ≤ t) (hq : q < rrM t) :
    ((rrTail t).rotate (r * (rrM t - 1))).get? q = some (rrTailVal t r q) := by
  rw [List.get?_rotate (by rw [rrTail_length t ht]; exact hq)]
  rw [rrTail_length t ht]
  exact rrTail_get? t _ ht (Nat.mod_lt _ (by have := rrM_pos t ht; omega))

/-- Round `r` of the circle method over the working list equals the
abstract pair list of round `r`, filtered of pairings touching the
phantom bye. -/
theorem roundMatchesRaw_rotIter (t r : Nat) (ht : 2 ≤ t) :
    roundMatchesRaw (rotIter r (rrList t)) =
      (rrPairsAbs t r).filter (fun p => decide (p.1 ≠ -1 ∧ p.2 ≠ -1)) := by
  have hm1 := rrM_pos t ht
  have hmo := rrM_odd t ht
  set m := rrM t with hmdef
  set L := rotIter r (rrList t) with hL
  have hcons : L = rrVal t 0 :: (rrTail t).rotate (r * (m - 1)) :=
    rotIter_rrList t r ht
  have hTlen : ((rrTail t).rotate (r * (m - 1))).length = m := by
    rw [List.length_rotate, rrTail_length t ht]
  have hLlen : L.length = m + 1 := by
    rw [hcons]
    simp [hTlen]
  have hhalf : L.length / 2 = (m - 1) / 2 + 1 := by
    rw [hLlen]
    omega
  -- the value of the i-th pairing of the round
  have hget : ∀ i, i ≤ m - 1 →
      L.get? i = some (if i = 0 then rrVal t 0 else rrTailVal t r (i - 1)) := by
    intro i hi
    rcases Nat.eq_zero_or_pos i with rfl | hipos
    · rw [hcons]
      simp
    · rw [hcons]
      obtain ⟨j, rfl⟩ : ∃ j, i = j + 1 := ⟨i - 1, by omega⟩
      have : (rrVal t 0 :: (rrTail t).rotate (r * (m - 1))).get? (j + 1) =
          ((rrTail t).rotate (r * (m - 1))).get? j := rfl
      rw [this, rotTail_get? t r j ht (by omega)]
      simp
  unfold roundMatchesRaw
  rw [hhalf]
  rw [filterMap_eq_filter_map _
    (fun i => (if i = 0 then rrVal t 0 else rrTailVal t r (i - 1),
               rrTailVal t r (m - 1 - i)))
    (fun p => decide (p.1 ≠ -1 ∧ p.2 ≠ -1))]
  · -- the mapped range is exactly the abstract pair list
    congr 1
    rw [List.range_succ_eq_map, List.map_cons, List.map_map]
    unfold rrPairsAbs
    rw [← hmdef]
    refine congrArg₂ List.cons (by simp) ?_
    apply List.map_congr_left
    intro a ha
    simp only [Function.comp_apply, Nat.succ_eq_add_one]
    rw [if_neg (by omega : ¬(a + 1 = 0))]
    simp only [Nat.add_sub_cancel]
    have hidx : m - 1 - (a + 1) = m - 2 - a := by omega
    rw [hidx]
  · -- the filterMap body matches
    intro i hi
    have hiv : i < (m - 1) / 2 + 1 := by simpa using List.mem_range.mp hi
    have hile : i ≤ m - 1 := by omega
    have h1 := hget i hile
    have h2 : L.get? (L.length - 1 - i) = some (rrTailVal t r (m - 1 - i)) := by
      have hidx : L.length - 1 - i = (m - 1 - i) + 1 := by
        rw [hLlen]
        omega
      rw [hidx, hcons]
      have : (rrVal t 0 :: (rrTail t).rotate (r * (m - 1))).get? ((m - 1 - i) + 1) =
          ((rrTail t).rotate (r * (m - 1))).get? (m - 1 - i) := rfl
      rw [this, rotTail_get? t r _ ht (by omega)]
    rw [h1, h2]
    by_cases hv : (if i = 0 then rrVal t 0 else rrTailVal t r (i - 1)) ≠ -1 ∧
        rrTailVal t r (m - 1 - i) ≠ -1
    · simp [hv]
    · simp [hv]

theorem rrPairsAbs_components (t r : Nat) :
    (rrPairsAbs t r).flatMap (fun p => [p.1, p.2]) =
      rrVal t 0 :: (rrSlots t).map (rrTailVal t r) := by
  unfold rrPairsAbs rrSlots
  simp only [List.flatMap_cons, List.map_cons, List.map_flatMap,
    List.flatMap_map]
  rfl

theorem rrSlots_lt (t : Nat) (ht : 2 ≤ t) :
    ∀ x ∈ rrSlots t, x < rrM t := by
  have hm := rrM_pos t ht
  intro x hx
  unfold rrSlots at hx
  rcases List.mem_cons.mp hx with rfl | hx
  · omega
  · obtain ⟨j, hj, hxj⟩ := List.mem_flatMap.mp hx
    have hj' := List.mem_range.mp hj
    simp only [List.mem_cons, List.mem_singleton] at hxj
    rcases hxj with rfl | rfl | h
    · omega
    · omega
    · simp at h

theorem rrSlots_cover (t : Nat) (ht : 2 ≤ t) :
    ∀ x < rrM t, x ∈ rrSlots t := by
  have hm := rrM_pos t ht
  have hmo := rrM_odd t ht
  intro x hx
  unfold rrSlots
  rcases Nat.lt_or_ge x ((rrM t - 1) / 2) with hlow | hhigh
  · refine List.mem_cons.mpr (Or.inr (List.mem_flatMap.mpr ⟨x, ?_, ?_⟩))
    · exact List.mem_range.mpr hlow
    · simp
  · rcases Nat.eq_or_lt_of_le (show x ≤ rrM t - 1 by omega) |>.symm.imp id Eq.symm
      with h | rfl
    · refine List.mem_cons.mpr (Or.inr (List.mem_flatMap.mpr
        ⟨rrM t - 2 - x, ?_, ?_⟩))
      · refine List.mem_range.mpr ?_
        omega
      · have : rrM t - 2 - (rrM t - 2 - x) = x := by omega
        rw [this]
        simp
    · exact List.mem_cons.mpr (Or.inl rfl)

theorem rrSlotsAux_nodup (t : Nat) (ht : 2 ≤ t) :
    ∀ c, 2 * c + 1 ≤ rrM t →
      ((List.range c).flatMap (fun j => [j, rrM t - 2 - j])).Nodup ∧
      (∀ x ∈ (List.range c).flatMap (fun j => [j, rrM t - 2 - j]),
        x < c ∨ (rrM t - 2 - c < x ∧ x ≤ rrM t - 2)) := by
  have hmo := rrM_odd t ht
  intro c
  induction c with
  | zero => simp
  | succ c ih =>
    intro hc
    obtain ⟨ihn, ihb⟩ := ih (by omega)
    have hsplit : (List.range (c + 1)).flatMap (fun j => [j, rrM t - 2 - j]) =
        (List.range c).flatMap (fun j => [j, rrM t - 2 - j]) ++
          [c, rrM t - 2 - c] := by
      rw [List.range_succ, List.flatMap_append]
      simp
    constructor
    · rw [hsplit]
      rw [List.nodup_append]
      refine ⟨ihn, ?_, ?_⟩
      · simp
        omega
      · intro a ha hb
        have hbd := ihb a ha
        simp only [List.mem_cons, List.mem_singleton] at hb
        rcases hb with rfl | rfl | h
        · omega
        · omega
        · simp at h
    · intro x hx
      rw [hsplit] at hx
      rcases List.mem_append.mp hx with hx | hx
      · have := ihb x hx
        omega
      · simp only [List.mem_cons, List.mem_singleton] at hx
        rcases hx with rfl | rfl | h
        · omega
        · omega
        · simp at h

theorem rrSlots_nodup (t : Nat) (ht : 2 ≤ t) : (rrSlots t).Nodup := by
  have hm := rrM_pos t ht
  have hmo := rrM_odd t ht
  obtain ⟨hn, hb⟩ := rrSlotsAux_nodup t ht ((rrM t - 1) / 2) (by omega)
  unfold rrSlots
  rw [List.nodup_cons]
  refine ⟨?_, hn⟩
  intro hmem
  have := hb _ hmem
  omega

theorem keyOf_eq_cases {p q : Int × Int} (h : keyOf p = keyOf q) :
    (p.1 = q.1 ∧ p.2 = q.2) ∨ (p.1 = q.2 ∧ p.2 = q.1) := by
  unfold keyOf at h
  have h1 := congrArg Prod.fst h
  have h2 := congrArg Prod.snd h
  simp only at h1 h2
  omega

theorem keys_nodup_of_flat_nodup :
    ∀ l : List (Int × Int),
      ((l.flatMap (fun p => [p.1, p.2])).Nodup) → (l.map keyOf).Nodup := by
  intro l
  induction l with
  | nil => simp
  | cons p rest ih =>
    intro h
    simp only [List.flatMap_cons, List.cons_append, List.nodup_cons,
      List.mem_append, List.singleton_append] at h
    obtain ⟨h1, h2, h3⟩ := h
    rw [List.map_cons, List.nodup_cons]
    refine ⟨?_, ih h3⟩
    intro hmem
    obtain ⟨q, hq, hkey⟩ := List.mem_map.mp hmem
    have hq1 : q.1 ∈ rest.flatMap (fun p => [p.1, p.2]) :=
      List.mem_flatMap.mpr ⟨q, hq, by simp⟩
    have hq2 : q.2 ∈ rest.flatMap (fun p => [p.1, p.2]) :=
      List.mem_flatMap.mpr ⟨q, hq, by simp⟩
    rcases keyOf_eq_cases hkey.symm with ⟨ha, hb⟩ | ⟨ha, hb⟩
    · refine h1 (List.mem_cons.mpr (Or.inr ?_))
      rw [ha]
      exact hq1
    · refine h1 (List.mem_cons.mpr (Or.inr ?_))
      rw [ha]
      exact hq2

theorem flat_components_length :
    ∀ l : List (Int × Int), (l.flatMap (fun p => [p.1, p.2])).length = 2 * l.length := by
  intro l
  induction l with
  | nil => rfl
  | cons p rest ih =>
    rw [List.flatMap_cons]
    simp [ih]
    omega

theorem filter_valid_length :
    ∀ l : List (Int × Int),
      (l.flatMap (fun p => [p.1, p.2])).count (-1) ≤ 1 →
      (l.filter (fun p => decide (p.1 ≠ -1 ∧ p.2 ≠ -1))).length =
        l.length - (l.flatMap (fun p => [p.1, p.2])).count (-1) := by
  intro l
  induction l with
  | nil => simp
  | cons p rest ih =>
    intro h
    rw [List.flatMap_cons, List.count_append] at h ⊢
    have hcle := List.count_le_length (-1) (rest.flatMap (fun p => [p.1, p.2]))
    rw [flat_components_length] at hcle
    by_cases h1 : p.1 = -1
    · have hcge : 1 ≤ ([p.1, p.2] : List Int).count (-1) := by
        simp [List.count_cons, h1]
      rw [List.filter_cons, if_neg (by simp [h1])]
      rw [ih (by omega)]
      simp only [List.length_cons]
      omega
    · by_cases h2 : p.2 = -1
      · have hcge : 1 ≤ ([p.1, p.2] : List Int).count (-1) := by
          simp [List.count_cons, h2]
        rw [List.filter_cons, if_neg (by simp [h2])]
        rw [ih (by omega)]
        simp only [List.length_cons]
        omega
      · have hc0 : ([p.1, p.2] : List Int).count (-1) = 0 := by
          simp [List.count_cons, h1, h2]
        rw [List.filter_cons, if_pos (by simp [h1, h2])]
        simp only [List.length_cons]
        rw [ih (by omega), hc0]
        omega

theorem rrN_ge (t : Nat) : t ≤ rrN t := by
  unfold rrN
  split_ifs <;> omega

theorem rrM_lt_rrN (t : Nat) (ht : 2 ≤ t) : rrM t < rrN t := by
  have := rrN_ge t
  unfold rrM
  omega

theorem rrVal_inj (t : Nat) {p q : Nat} (hp : p < rrN t) (hq : q < rrN t)
    (h : rrVal t p = rrVal t q) : p = q := by
  unfold rrVal at h
  unfold rrN at hp hq
  split_ifs at * <;> omega

theorem rrTailVal_phi_eq (t : Nat) (ht : 2 ≤ t) {r1 r2 q1 q2 : Nat}
    (h1 : q1 < rrM t) (h2 : q2 < rrM t)
    (h : rrTailVal t r1 q1 = rrTailVal t r2 q2) :
    rrPhi t r1 q1 = rrPhi t r2 q2 := by
  have hb1 := rrPhi_lt t r1 q1 ht
  have hb2 := rrPhi_lt t r2 q2 ht
  have hmn := rrM_lt_rrN t ht
  unfold rrTailVal at h
  have := rrVal_inj t (by omega) (by omega) h
  omega

theorem rrVal_zero_ne_tailVal (t : Nat) (ht : 2 ≤ t) (r q : Nat) :
    rrVal t 0 ≠ rrTailVal t r q := by
  intro h
  have hb := rrPhi_lt t r q ht
  have hmn := rrM_lt_rrN t ht
  unfold rrTailVal at h
  have := rrVal_inj t (by omega) (by omega) h
  omega

theorem rrTailVal_map_nodup (t r : Nat) (ht : 2 ≤ t) :
    ((rrSlots t).map (rrTailVal t r)).Nodup := by
  refine List.Nodup.map_on ?_ (rrSlots_nodup t ht)
  intro x hx y hy hxy
  exact rrPhi_inj t r ht (rrSlots_lt t ht x hx) (rrSlots_lt t ht y hy)
    (rrTailVal_phi_eq t ht (rrSlots_lt t ht x hx) (rrSlots_lt t ht y hy) hxy)

theorem rrPairsAbs_flat_nodup (t r : Nat) (ht : 2 ≤ t) :
    ((rrPairsAbs t r).flatMap (fun p => [p.1, p.2])).Nodup := by
  rw [rrPairsAbs_components, List.nodup_cons]
  constructor
  · intro hmem
    obtain ⟨q, hq, hv⟩ := List.mem_map.mp hmem
    exact rrVal_zero_ne_tailVal t ht r q hv.symm
  · exact rrTailVal_map_nodup t r ht

theorem rrM_of_odd (t : Nat) (ho : t % 2 = 1) : rrM t = t := by
  unfold rrM rrN
  rw [if_pos ho]
  omega

theorem rrM_of_even (t : Nat) (ho : ¬(t % 2 = 1)) : rrM t = t - 1 := by
  unfold rrM rrN
  rw [if_neg ho]

theorem rrPairsAbs_count_neg_one (t r : Nat) (ht : 2 ≤ t) :
    ((rrPairsAbs t r).flatMap (fun p => [p.1, p.2])).count (-1) =
      if t % 2 = 1 then 1 else 0 := by
  rw [rrPairsAbs_components]
  have hhead : rrVal t 0 = 0 := by
    unfold rrVal
    rw [if_pos (by omega)]
    rfl
  have hcc : ((rrVal t 0 :: (rrSlots t).map (rrTailVal t r)).count (-1)) =
      ((rrSlots t).map (rrTailVal t r)).count (-1) := by
    rw [hhead, List.count_cons]
    norm_num
  rw [hcc]
  by_cases ho : t % 2 = 1
  · obtain ⟨q, hqlt, hphi⟩ := rrPhi_surj t r (rrM t - 1) ht
      (by have := rrM_pos t ht; omega)
    have hmem : (-1 : Int) ∈ (rrSlots t).map (rrTailVal t r) := by
      refine List.mem_map.mpr ⟨q, rrSlots_cover t ht q hqlt, ?_⟩
      unfold rrTailVal
      rw [hphi]
      have hm := rrM_pos t ht
      have : rrM t - 1 + 1 = rrM t := by omega
      rw [this, rrM_of_odd t ho]
      unfold rrVal
      rw [if_neg (by omega)]
    rw [if_pos ho]
    exact (List.count_eq_one_of_mem (rrTailVal_map_nodup t r ht) hmem)
  · rw [if_neg ho]
    apply List.count_eq_zero_of_not_mem
    intro hmem
    obtain ⟨q, hq, hv⟩ := List.mem_map.mp hmem
    have hb := rrPhi_lt t r q ht
    have hme := rrM_of_even t ho
    unfold rrTailVal rrVal at hv
    rw [if_pos (by omega)] at hv
    omega

theorem rrPairsAbs_length (t r : Nat) :
    (rrPairsAbs t r).length = (rrM t - 1) / 2 + 1 := by
  unfold rrPairsAbs
  simp

theorem rrRound_filter_length (t r : Nat) (ht : 2 ≤ t) :
    ((rrPairsAbs t r).filter (fun p => decide (p.1 ≠ -1 ∧ p.2 ≠ -1))).length =
      if t % 2 = 1 then (t - 1) / 2 else t / 2 := by
  rw [filter_valid_length _ (by
    rw [rrPairsAbs_count_neg_one t r ht]
    split_ifs <;> omega)]
  rw [rrPairsAbs_length, rrPairsAbs_count_neg_one t r ht]
  have hmo := rrM_odd t ht
  by_cases ho : t % 2 = 1
  · have := rrM_of_odd t ho
    rw [if_pos ho, if_pos ho]
    omega
  · have := rrM_of_even t ho
    rw [if_neg ho, if_neg ho]
    omega

theorem rrPairsAbs_shape (t r : Nat) :
    ∀ p ∈ rrPairsAbs t r,
      p = (rrVal t 0, rrTailVal t r (rrM t - 1)) ∨
      (∃ j < (rrM t - 1) / 2,
        p = (rrTailVal t r j, rrTailVal t r (rrM t - 2 - j))) := by
  intro p hp
  unfold rrPairsAbs at hp
  rcases List.mem_cons.mp hp with rfl | hp
  · exact Or.inl rfl
  · right
    obtain ⟨j, hj, rfl⟩ := List.mem_map.mp hp
    exact ⟨j, List.mem_range.mp hj, rfl⟩

theorem rrRound_eq_of_modEq (t : Nat) {r1 r2 : Nat}
    (hr1 : r1 < rrM t) (hr2 : r2 < rrM t) (h : r1 ≡ r2 [MOD rrM t]) :
    r1 = r2 := by
  calc r1 = r1 % rrM t := (Nat.mod_eq_of_lt hr1).symm
  _ = r2 % rrM t := h
  _ = r2 := Nat.mod_eq_of_lt hr2

theorem rrPhi_head_round_eq (t : Nat) (ht : 2 ≤ t) {r1 r2 : Nat}
    (hr1 : r1 < rrM t) (hr2 : r2 < rrM t)
    (h : rrPhi t r1 (rrM t - 1) = rrPhi t r2 (rrM t - 1)) : r1 = r2 := by
  unfold rrPhi at h
  have h' : (r1 + 1) * (rrM t - 1) ≡ (r2 + 1) * (rrM t - 1) [MOD rrM t] := by
    show ((r1 + 1) * (rrM t - 1)) % rrM t = ((r2 + 1) * (rrM t - 1)) % rrM t
    rw [show (r1 + 1) * (rrM t - 1) = rrM t - 1 + r1 * (rrM t - 1) by ring,
        show (r2 + 1) * (rrM t - 1) = rrM t - 1 + r2 * (rrM t - 1) by ring]
    exact h
  have h2 : r1 + 1 ≡ r2 + 1 [MOD rrM t] :=
    Nat.ModEq.cancel_right_of_coprime (rrM_coprime_pred t ht) h'
  exact rrRound_eq_of_modEq t hr1 hr2 (Nat.ModEq.add_right_cancel' 1 h2)

theorem rrPhi_sum_round_eq (t : Nat) (ht : 2 ≤ t) {r1 r2 j1 j2 : Nat}
    (hr1 : r1 < rrM t) (hr2 : r2 < rrM t)
    (hj1 : j1 < (rrM t - 1) / 2) (hj2 : j2 < (rrM t - 1) / 2)
    (hsum : rrPhi t r1 j1 + rrPhi t r1 (rrM t - 2 - j1) =
      rrPhi t r2 j2 + rrPhi t r2 (rrM t - 2 - j2)) : r1 = r2 := by
  have hmo := rrM_odd t ht
  have hm1 := rrM_pos t ht
  have e1 : rrPhi t r1 j1 + rrPhi t r1 (rrM t - 2 - j1) ≡
      (rrM t - 2) + 2 * (r1 * (rrM t - 1)) [MOD rrM t] := by
    have a1 : rrPhi t r1 j1 ≡ j1 + r1 * (rrM t - 1) [MOD rrM t] :=
      Nat.mod_modEq _ _
    have a2 : rrPhi t r1 (rrM t - 2 - j1) ≡
        (rrM t - 2 - j1) + r1 * (rrM t - 1) [MOD rrM t] :=
      Nat.mod_modEq _ _
    have hcomb := Nat.ModEq.add a1 a2
    have heq : (j1 + r1 * (rrM t - 1)) + ((rrM t - 2 - j1) + r1 * (rrM t - 1)) =
        (rrM t - 2) + 2 * (r1 * (rrM t - 1)) := by
      omega
    rw [heq] at hcomb
    exact hcomb
  have e2 : rrPhi t r2 j2 + rrPhi t r2 (rrM t - 2 - j2) ≡
      (rrM t - 2) + 2 * (r2 * (rrM t - 1)) [MOD rrM t] := by
    have a1 : rrPhi t r2 j2 ≡ j2 + r2 * (rrM t - 1) [MOD rrM t] :=
      Nat.mod_modEq _ _
    have a2 : rrPhi t r2 (rrM t - 2 - j2) ≡
        (rrM t - 2 - j2) + r2 * (rrM t - 1) [MOD rrM t] :=
      Nat.mod_modEq _ _
    have hcomb := Nat.ModEq.add a1 a2
    have heq : (j2 + r2 * (rrM t - 1)) + ((rrM t - 2 - j2) + r2 * (rrM t - 1)) =
        (rrM t - 2) + 2 * (r2 * (rrM t - 1)) := by
      omega
    rw [heq] at hcomb
    exact hcomb
  have hmid : (rrM t - 2) + 2 * (r1 * (rrM t - 1)) ≡
      (rrM t - 2) + 2 * (r2 * (rrM t - 1)) [MOD rrM t] :=
    (e1.symm.trans (hsum ▸ e2 : rrPhi t r1 j1 + rrPhi t r1 (rrM t - 2 - j1) ≡
      (rrM t - 2) + 2 * (r2 * (rrM t - 1)) [MOD rrM t]))
  exact rrRound_eq_of_two_mul t ht hr1 hr2
    (Nat.ModEq.add_left_cancel' _ hmid)

theorem rrKeys_cross_round (t : Nat) (ht : 2 ≤ t) {r1 r2 : Nat}
    (hr1 : r1 < rrM t) (hr2 : r2 < rrM t) (hne : r1 ≠ r2) :
    ∀ p ∈ rrPairsAbs t r1, ∀ q ∈ rrPairsAbs t r2, keyOf p ≠ keyOf q := by
  have hmo := rrM_odd t ht
  have hm1 := rrM_pos t ht
  intro p hp q hq hk
  have hb : ∀ x : Nat, x < rrM t → x < rrM t := fun _ h => h
  rcases rrPairsAbs_shape t r1 p hp with rfl | ⟨j1, hj1, rfl⟩ <;>
    rcases rrPairsAbs_shape t r2 q hq with rfl | ⟨j2, hj2, rfl⟩
  · rcases keyOf_eq_cases hk with ⟨h1, h2⟩ | ⟨h1, h2⟩
    · exact hne (rrPhi_head_round_eq t ht hr1 hr2
        (rrTailVal_phi_eq t ht (by omega) (by omega) h2))
    · exact rrVal_zero_ne_tailVal t ht r2 _ h1
  · rcases keyOf_eq_cases hk with ⟨h1, h2⟩ | ⟨h1, h2⟩
    · exact rrVal_zero_ne_tailVal t ht r2 _ h1
    · exact rrVal_zero_ne_tailVal t ht r2 _ h1
  · rcases keyOf_eq_cases hk with ⟨h1, h2⟩ | ⟨h1, h2⟩
    · exact rrVal_zero_ne_tailVal t ht r1 _ h1.symm
    · exact rrVal_zero_ne_tailVal t ht r1 _ h2.symm
  · rcases keyOf_eq_cases hk with ⟨h1, h2⟩ | ⟨h1, h2⟩
    · have s1 := rrTailVal_phi_eq t ht (by omega) (by omega) h1
      have s2 := rrTailVal_phi_eq t ht (by omega) (by omega) h2
      exact hne (rrPhi_sum_round_eq t ht hr1 hr2 hj1 hj2 (by omega))
    · have s1 := rrTailVal_phi_eq t ht (by omega) (by omega) h1
      have s2 := rrTailVal_phi_eq t ht (by omega) (by omega) h2
      exact hne (rrPhi_sum_round_eq t ht hr1 hr2 hj1 hj2 (by omega))

theorem sublist_flatMap_mono {α β : Type} {l₁ l₂ : List α} (f : α → List β)
    (h : l₁.Sublist l₂) : (l₁.flatMap f).Sublist (l₂.flatMap f) := by
  induction h with
  | slnil => simp
  | cons a h ih =>
    rw [List.flatMap_cons]
    exact ih.trans (List.sublist_append_right _ _)
  | cons₂ a h ih =>
    rw [List.flatMap_cons, List.flatMap_cons]
    exact ih.append_left _

theorem length_flatMap_const {α β : Type} (f : α → List β) (c : Nat) :
    ∀ l : List α, (∀ x ∈ l, (f x).length = c) →
      (l.flatMap f).length = l.length * c
  | [], _ => by simp
  | a :: rest, h => by
    rw [List.flatMap_cons, List.length_append, h a (by simp),
      length_flatMap_const f c rest (fun x hx => h x (by simp [hx])),
      List.length_cons]
    ring

theorem length_filter_eq_count_map {α β : Type} [DecidableEq β]
    (f : α → β) (y : β) :
    ∀ l : List α,
      (l.filter (fun x => decide (f x = y))).length = (l.map f).count y
  | [] => rfl
  | a :: rest => by
    by_cases h : f a = y
    · simp [List.filter_cons, List.count_cons, h,
        length_filter_eq_count_map f y rest]
    · simp [List.filter_cons, List.count_cons, h,
        length_filter_eq_count_map f y rest]

theorem zip_filter_map {α β γ : Type} (q : β → Bool) (g : β → γ) :
    ∀ (l₁ : List α) (l₂ : List β), l₁.length = l₂.length →
      ((l₁.zip l₂).filter (fun x => q x.2)).map (fun x => g x.2) =
        (l₂.filter q).map g
  | [], [], _ => rfl
  | [], _ :: _, h => by simp at h
  | _ :: _, [], h => by simp at h
  | a :: s, b :: u, h => by
    rw [List.zip_cons_cons, List.filter_cons, List.filter_cons]
    by_cases hq : q b = true
    · rw [if_pos hq, if_pos hq, List.map_cons, List.map_cons,
        zip_filter_map q g s u (by simpa using h)]
    · rw [if_neg hq, if_neg hq, zip_filter_map q g s u (by simpa using h)]

theorem renumber_length (L : List GeneratedMatch) :
    (renumber L).length = L.length := by
  unfold renumber
  simp

theorem renumber_filter_map {γ : Type} (L : List GeneratedMatch)
    (p : GeneratedMatch → Bool) (g : GeneratedMatch → γ)
    (hp : ∀ mm k, p { mm with matchNumber := k } = p mm)
    (hg : ∀ mm k, g { mm with matchNumber := k } = g mm) :
    ((renumber L).filter p).map g = (L.filter p).map g := by
  unfold renumber
  rw [List.filter_map, List.map_map]
  have h1 : ∀ x ∈ L.enum,
      ((p ∘ fun jm : Nat × GeneratedMatch =>
        { jm.2 with matchNumber := jm.1 + 1 }) x) =
        ((fun x : Nat × GeneratedMatch => p x.2) x) := by
    intro x _
    exact hp x.2 (x.1 + 1)
  rw [List.filter_congr h1]
  have h2 : ∀ x ∈ L.enum.filter (fun x : Nat × GeneratedMatch => p x.2),
      ((g ∘ fun jm : Nat × GeneratedMatch =>
        { jm.2 with matchNumber := jm.1 + 1 }) x) =
        ((fun x : Nat × GeneratedMatch => g x.2) x) := by
    intro x _
    exact hg x.2 (x.1 + 1)
  rw [List.map_congr_left h2, List.enum_eq_zip_range]
  exact zip_filter_map _ _ _ _ (List.length_range L.length)

theorem renumber_filter_length (L : List GeneratedMatch)
    (p : GeneratedMatch → Bool)
    (hp : ∀ mm k, p { mm with matchNumber := k } = p mm) :
    ((renumber L).filter p).length = (L.filter p).length := by
  have h := renumber_filter_map L p (fun _ => (0 : Nat)) hp (fun _ _ => rfl)
  have h1 := congrArg List.length h
  simpa using h1

theorem generateRoundRobin_matches_eq (t : Nat) (ht : 2 ≤ t) :
    (generateRoundRobin t).«matches» = renumber ((rrTagged t).map rrToGm) := by
  have hbase : (generateRoundRobin t).«matches» =
      renumber ((((rrRounds (rrList t) ((rrList t).length - 1)).enum).flatMap
        (fun rms => rms.2.map (fun p => (rms.1 + 1, p.1, p.2)))).map rrToGm) :=
    rfl
  rw [hbase, rrList_length]
  show renumber ((((rrRounds (rrList t) (rrM t)).enum).flatMap
      (fun rms => rms.2.map (fun p => (rms.1 + 1, p.1, p.2)))).map rrToGm) = _
  congr 2
  rw [rrRounds_eq_map]
  have hmap : (List.range (rrM t)).map
      (fun r => roundMatchesRaw (rotIter r (rrList t))) =
      (List.range (rrM t)).map (fun r => rrFiltered t r) :=
    List.map_congr_left (fun r _ => roundMatchesRaw_rotIter t r ht)
  rw [hmap, List.enum_map, List.flatMap_map]
  have henum : (List.range (rrM t)).enum =
      (List.range (rrM t)).map (fun i => (i, i)) := by
    apply List.ext_getElem
    · simp
    · intro i h1 h2
      simp [List.getElem_enum]
  rw [henum, List.flatMap_map]
  rfl

theorem rrVal_shape (t p : Nat) (h : rrVal t p ≠ -1) :
    p < t ∧ rrVal t p = (p : Int) := by
  unfold rrVal at h ⊢
  by_cases hp : p < t
  · exact ⟨hp, if_pos hp⟩
  · rw [if_neg hp] at h
    exact absurd rfl h

theorem rrFiltered_shape (t r : Nat) (ht : 2 ≤ t) :
    ∀ p ∈ rrFiltered t r, ∃ x y : Nat, x < t ∧ y < t ∧ x ≠ y ∧
      p = ((x : Int), (y : Int)) := by
  intro p hp
  rw [rrFiltered, List.mem_filter] at hp
  obtain ⟨hmem, hval⟩ := hp
  have hval' : p.1 ≠ -1 ∧ p.2 ≠ -1 := by simpa using hval
  have hmo := rrM_odd t ht
  rcases rrPairsAbs_shape t r p hmem with heq | ⟨j, hj, heq⟩
  · have h1 := hval'.1
    have h2 := hval'.2
    rw [heq] at h1 h2 ⊢
    obtain ⟨hy, hyv⟩ := rrVal_shape t _ h2
    refine ⟨0, rrPhi t r (rrM t - 1) + 1, by omega, hy, by omega, ?_⟩
    rw [show rrVal t 0 = ((0 : Nat) : Int) from if_pos (by omega)]
    rw [show rrTailVal t r (rrM t - 1) = rrVal t (rrPhi t r (rrM t - 1) + 1)
      from rfl, hyv]
  · have h1 := hval'.1
    have h2 := hval'.2
    rw [heq] at h1 h2 ⊢
    obtain ⟨hx, hxv⟩ := rrVal_shape t _ h1
    obtain ⟨hy, hyv⟩ := rrVal_shape t _ h2
    refine ⟨rrPhi t r j + 1, rrPhi t r (rrM t - 2 - j) + 1, hx, hy, ?_, ?_⟩
    · intro hc
      have hphi : rrPhi t r j = rrPhi t r (rrM t - 2 - j) := by omega
      have := rrPhi_inj t r ht (by omega) (by omega) hphi
      omega
    · rw [show rrTailVal t r j = rrVal t (rrPhi t r j + 1) from rfl,
        show rrTailVal t r (rrM t - 2 - j) =
          rrVal t (rrPhi t r (rrM t - 2 - j) + 1) from rfl, hxv, hyv]

theorem rrFiltered_flat_mem (t r : Nat) (ht : 2 ≤ t) :
    ∀ v ∈ (rrFiltered t r).flatMap (fun p => [p.1, p.2]),
      ∃ x : Nat, x < t ∧ v = (x : Int) := by
  intro v hv
  obtain ⟨p, hp, hv⟩ := List.mem_flatMap.mp hv
  obtain ⟨x, y, hx, hy, _, rfl⟩ := rrFiltered_shape t r ht p hp
  rcases List.mem_cons.mp hv with rfl | hv2
  · exact ⟨x, hx, rfl⟩
  · rcases List.mem_cons.mp hv2 with rfl | hv3
    · exact ⟨y, hy, rfl⟩
    · simp at hv3

theorem rrFiltered_flat_nodup (t r : Nat) (ht : 2 ≤ t) :
    ((rrFiltered t r).flatMap (fun p => [p.1, p.2])).Nodup := by
  have hfs : (rrFiltered t r).Sublist (rrPairsAbs t r) := by
    rw [rrFiltered]
    exact List.filter_sublist _
  have hsub := sublist_flatMap_mono (fun p : Int × Int => [p.1, p.2]) hfs
  exact (rrPairsAbs_flat_nodup t r ht).sublist hsub

theorem rrRound_teams_nodup (t r : Nat) (ht : 2 ≤ t) :
    ((rrFiltered t r).flatMap (fun p => [p.1.toNat, p.2.toNat])).Nodup := by
  have hmap : (rrFiltered t r).flatMap (fun p => [p.1.toNat, p.2.toNat]) =
      ((rrFiltered t r).flatMap (fun p => [p.1, p.2])).map Int.toNat := by
    rw [List.map_flatMap]
    simp
  rw [hmap]
  refine List.Nodup.map_on ?_ (rrFiltered_flat_nodup t r ht)
  intro u hu v hv huv
  obtain ⟨x, _, rfl⟩ := rrFiltered_flat_mem t r ht u hu
  obtain ⟨y, _, rfl⟩ := rrFiltered_flat_mem t r ht v hv
  simp at huv
  exact_mod_cast huv

theorem rrTagged_length (t : Nat) (ht : 2 ≤ t) :
    (rrTagged t).length = t * (t - 1) / 2 := by
  unfold rrTagged
  rw [length_flatMap_const _ (if t % 2 = 1 then (t - 1) / 2 else t / 2) _
    (fun r _ => by
      rw [List.length_map]
      exact rrRound_filter_length t r ht)]
  rw [List.length_range]
  by_cases ho : t % 2 = 1
  · rw [rrM_of_odd t ho, if_pos ho,
      Nat.mul_div_assoc t ⟨(t - 1) / 2, by omega⟩]
  · rw [rrM_of_even t ho, if_neg ho,
      ← Nat.mul_div_assoc (t - 1) ⟨t / 2, by omega⟩, Nat.mul_comm (t - 1) t]

theorem renumber_filter_flatMap {γ : Type} (L : List GeneratedMatch)
    (p : GeneratedMatch → Bool) (f : GeneratedMatch → List γ)
    (hp : ∀ mm k, p { mm with matchNumber := k } = p mm)
    (hf : ∀ mm k, f { mm with matchNumber := k } = f mm) :
    ((renumber L).filter p).flatMap f = (L.filter p).flatMap f := by
  have h := renumber_filter_map L p f hp hf
  calc ((renumber L).filter p).flatMap f
      = (((renumber L).filter p).map f).flatten := List.flatMap_def _ _
    _ = ((L.filter p).map f).flatten := by rw [h]
    _ = (L.filter p).flatMap f := (List.flatMap_def _ _).symm

theorem flatMap_eq_nil_of_forall {α β : Type} (f : α → List β) :
    ∀ l : List α, (∀ x ∈ l, f x = []) → l.flatMap f = []
  | [], _ => rfl
  | a :: rest, h => by
    rw [List.flatMap_cons, h a (by simp),
      flatMap_eq_nil_of_forall f rest (fun x hx => h x (by simp [hx]))]
    rfl

theorem flatMap_single {α : Type} (f : Nat → List α) :
    ∀ (m r0 : Nat), r0 < m → (∀ r, r < m → r ≠ r0 → f r = []) →
      (List.range m).flatMap f = f r0 := by
  intro m
  induction m with
  | zero =>
    intro r0 hr _
    omega
  | succ m ih =>
    intro r0 hr h
    rw [List.range_succ, List.flatMap_append]
    by_cases hm : r0 = m
    · subst hm
      rw [flatMap_eq_nil_of_forall f (List.range r0)
        (fun x hx => h x (by have := List.mem_range.mp hx; omega)
          (by have := List.mem_range.mp hx; omega))]
      simp
    · rw [ih r0 (by omega) (fun r hrm hne => h r (by omega) hne)]
      have hfm : f m = [] := h m (by omega) (fun hc => hm hc.symm)
      simp [hfm]

theorem rrTagged_mem (t : Nat) :
    ∀ tg ∈ rrTagged t, ∃ r, r < rrM t ∧ ∃ p ∈ rrFiltered t r,
      tg = (r + 1, p.1, p.2) := by
  unfold rrTagged
  intro tg htg
  obtain ⟨r, hr, htg2⟩ := List.mem_flatMap.mp htg
  obtain ⟨p, hp, rfl⟩ := List.mem_map.mp htg2
  exact ⟨r, List.mem_range.mp hr, p, hp, rfl⟩

theorem rrTagged_round_teams (t : Nat) (ht : 2 ≤ t) (rd : Nat) :
    (((rrTagged t).filter (fun tg => decide (tg.1 = rd))).flatMap
      (fun tg => [tg.2.1.toNat, tg.2.2.toNat])).Nodup := by
  unfold rrTagged
  rw [List.filter_flatMap, List.flatMap_assoc]
  have hblock : ∀ r : Nat,
      ((((rrFiltered t r).map (fun p => (r + 1, p.1, p.2))).filter
        (fun tg : Nat × Int × Int => decide (tg.1 = rd))).flatMap
        (fun tg => [tg.2.1.toNat, tg.2.2.toNat])) =
      if r + 1 = rd then
        (rrFiltered t r).flatMap (fun p => [p.1.toNat, p.2.toNat])
      else [] := by
    intro r
    by_cases hr : r + 1 = rd
    · rw [if_pos hr]
      have hft : ((rrFiltered t r).map (fun p => (r + 1, p.1, p.2))).filter
          (fun tg : Nat × Int × Int => decide (tg.1 = rd)) =
          (rrFiltered t r).map (fun p => (r + 1, p.1, p.2)) := by
        apply List.filter_eq_self.mpr
        intro x hx
        obtain ⟨p, _, rfl⟩ := List.mem_map.mp hx
        simpa using hr
      rw [hft, List.flatMap_map]
    · rw [if_neg hr]
      have hft : ((rrFiltered t r).map (fun p => (r + 1, p.1, p.2))).filter
          (fun tg : Nat × Int × Int => decide (tg.1 = rd)) = [] := by
        apply List.filter_eq_nil_iff.mpr
        intro x hx
        obtain ⟨p, _, rfl⟩ := List.mem_map.mp hx
        simpa using hr
      rw [hft]
      rfl
  rw [congrArg (List.flatMap (List.range (rrM t))) (funext hblock)]
  by_cases hin : 1 ≤ rd ∧ rd ≤ rrM t
  · rw [flatMap_single _ (rrM t) (rd - 1) (by omega)
      (fun r hrm hne => by rw [if_neg (by omega)])]
    rw [if_pos (by omega)]
    exact rrRound_teams_nodup t (rd - 1) ht
  · rw [flatMap_eq_nil_of_forall _ _ (fun r hr => by
      rw [if_neg (by have := List.mem_range.mp hr; omega)])]
    exact List.nodup_nil

theorem rrKeys_eq (t : Nat) :
    (rrTagged t).map (fun tg => keyOf tg.2) =
      (List.range (rrM t)).flatMap
        (fun r => (rrFiltered t r).map (fun p => keyOf p)) := by
  unfold rrTagged
  rw [List.map_flatMap]
  refine congrArg _ (funext fun r => ?_)
  rw [List.map_map]
  rfl

theorem rrKeys_nodup (t : Nat) (ht : 2 ≤ t) :
    ((rrTagged t).map (fun tg => keyOf tg.2)).Nodup := by
  rw [rrKeys_eq]
  apply List.nodup_flatMap.mpr
  refine ⟨?_, ?_⟩
  · intro r _
    exact keys_nodup_of_flat_nodup _ (rrFiltered_flat_nodup t r ht)
  · refine List.Pairwise.imp_of_mem ?_ (List.pairwise_lt_range (rrM t))
    intro r1 r2 hm1 hm2 hlt
    have hr1 : r1 < rrM t := List.mem_range.mp hm1
    have hr2 : r2 < rrM t := List.mem_range.mp hm2
    intro k hk1 hk2
    obtain ⟨p, hp1, rfl⟩ := List.mem_map.mp hk1
    obtain ⟨q, hq2, heq⟩ := List.mem_map.mp hk2
    rw [rrFiltered] at hp1 hq2
    exact rrKeys_cross_round t ht hr1 hr2 (by omega) p
      (List.mem_of_mem_filter hp1) q (List.mem_of_mem_filter hq2) heq.symm

theorem allKeys_nodup (t : Nat) : (allKeys t).Nodup := by
  unfold allKeys
  apply List.nodup_flatMap.mpr
  refine ⟨?_, ?_⟩
  · intro b _
    refine List.Nodup.map_on ?_ (List.nodup_range b)
    intro u _ v _ huv
    have := congrArg Prod.fst huv
    simpa using this
  · refine List.Pairwise.imp_of_mem ?_ (List.pairwise_lt_range t)
    intro b1 b2 _ _ hlt
    intro k hk1 hk2
    obtain ⟨a1, _, rfl⟩ := List.mem_map.mp hk1
    obtain ⟨a2, _, heq⟩ := List.mem_map.mp hk2
    have := congrArg Prod.snd heq
    simp only at this
    have hcast : (b2 : Int) = (b1 : Int) := this
    omega

theorem twice_sum_range : ∀ n : Nat, 2 * (List.range n).sum = n * (n - 1)
  | 0 => rfl
  | n + 1 => by
    rw [List.range_succ, List.sum_append, Nat.mul_add, twice_sum_range n]
    simp only [List.sum_cons, List.sum_nil, Nat.add_zero, Nat.add_sub_cancel]
    cases n with
    | zero => rfl
    | succ k =>
      simp only [Nat.add_sub_cancel]
      ring

theorem allKeys_length (t : Nat) : (allKeys t).length = t * (t - 1) / 2 := by
  unfold allKeys
  rw [List.flatMap_def, List.length_flatten, List.map_map]
  have hm : ((List.range t).map (List.length ∘
      fun b => (List.range b).map (fun a : Nat => ((a : Int), (b : Int))))) =
      (List.range t).map (fun b => b) := by
    apply List.map_congr_left
    intro b _
    simp
  rw [hm, List.map_id']
  have h2 := twice_sum_range t
  omega

theorem keyOf_cast_mem_allKeys (t x y : Nat) (hx : x < t) (hy : y < t)
    (hxy : x ≠ y) : keyOf ((x : Int), (y : Int)) ∈ allKeys t := by
  unfold allKeys keyOf
  rcases Nat.lt_or_ge x y with h | h
  · apply List.mem_flatMap.mpr
    refine ⟨y, List.mem_range.mpr hy, ?_⟩
    apply List.mem_map.mpr
    refine ⟨x, List.mem_range.mpr h, ?_⟩
    simp only [Prod.mk.injEq]
    constructor
    · omega
    · omega
  · have hyx : y < x := by omega
    apply List.mem_flatMap.mpr
    refine ⟨x, List.mem_range.mpr hx, ?_⟩
    apply List.mem_map.mpr
    refine ⟨y, List.mem_range.mpr hyx, ?_⟩
    simp only [Prod.mk.injEq]
    constructor
    · omega
    · omega

theorem rrKeys_subset (t : Nat) (ht : 2 ≤ t) :
    ∀ k ∈ (rrTagged t).map (fun tg => keyOf tg.2), k ∈ allKeys t := by
  intro k hk
  obtain ⟨tg, htg, rfl⟩ := List.mem_map.mp hk
  obtain ⟨r, hr, p, hp, rfl⟩ := rrTagged_mem t tg htg
  obtain ⟨x, y, hx, hy, hxy, hpe⟩ := rrFiltered_shape t r ht p hp
  have heta : ((r + 1, p.1, p.2) : Nat × Int × Int).2 = p := rfl
  rw [heta, hpe]
  exact keyOf_cast_mem_allKeys t x y hx hy hxy

theorem rrKeys_count (t : Nat) (ht : 2 ≤ t) {a b : Nat} (ha : a < t)
    (hb : b < t) (hab : a ≠ b) :
    @List.count (Int × Int) instBEqOfDecidableEq (keyOf ((a : Int), (b : Int)))
      ((rrTagged t).map (fun tg => keyOf tg.2)) = 1 := by
  have hnd := rrKeys_nodup t ht
  have hsp := List.Nodup.subperm hnd (fun k hk => rrKeys_subset t ht k hk)
  have hlen : (allKeys t).length ≤
      ((rrTagged t).map (fun tg => keyOf tg.2)).length := by
    rw [List.length_map, rrTagged_length t ht, allKeys_length]
  have hperm := hsp.perm_of_length_le hlen
  have hmem : keyOf ((a : Int), (b : Int)) ∈
      (rrTagged t).map (fun tg => keyOf tg.2) :=
    hperm.mem_iff.mpr (keyOf_cast_mem_allKeys t a b ha hb hab)
  exact List.count_eq_one_of_mem hnd hmem

/-- C1: for every `teamCount ≥ 2`, `generateRoundRobin` produces exactly
`teamCount * (teamCount - 1) / 2` matches; every unordered pair of distinct
team indices below `teamCount` appears as the home/away pair of exactly one
match; and within each round number no team index appears in more than one
match. -/
theorem generateRoundRobin_correct (t : Nat) (ht : 2 ≤ t) :
    ((generateRoundRobin t).«matches».length = t * (t - 1) / 2) ∧
    (∀ a b : Nat, a < t → b < t → a ≠ b →
      ((generateRoundRobin t).«matches».filter (fun mm =>
        decide ((mm.homeTeamIndex = some a ∧ mm.awayTeamIndex = some b) ∨
          (mm.homeTeamIndex = some b ∧ mm.awayTeamIndex = some a)))).length
        = 1) ∧
    (∀ rd : Nat,
      (((generateRoundRobin t).«matches».filter
          (fun mm => decide (mm.round = rd))).flatMap
        (fun mm => [mm.homeTeamIndex, mm.awayTeamIndex].filterMap id)).Nodup) := by
  refine ⟨?_, ?_, ?_⟩
  · rw [generateRoundRobin_matches_eq t ht, renumber_length, List.length_map]
    exact rrTagged_length t ht
  · intro a b ha hb hab
    have hren := renumber_filter_length ((rrTagged t).map rrToGm)
      (fun mm : GeneratedMatch =>
        decide ((mm.homeTeamIndex = some a ∧ mm.awayTeamIndex = some b) ∨
          (mm.homeTeamIndex = some b ∧ mm.awayTeamIndex = some a)))
      (fun mm k => rfl)
    rw [generateRoundRobin_matches_eq t ht, hren, List.filter_map,
      List.length_map]
    have hpt : ∀ tg ∈ rrTagged t,
        ((fun mm : GeneratedMatch =>
          decide ((mm.homeTeamIndex = some a ∧ mm.awayTeamIndex = some b) ∨
            (mm.homeTeamIndex = some b ∧ mm.awayTeamIndex = some a))) ∘
          rrToGm) tg =
        (fun tg : Nat × Int × Int =>
          decide (keyOf tg.2 = keyOf ((a : Int), (b : Int)))) tg := by
      intro tg htg
      obtain ⟨r, hr, p, hp, rfl⟩ := rrTagged_mem t tg htg
      obtain ⟨x, y, hx, hy, hxy, hpe⟩ := rrFiltered_shape t r ht p hp
      have hp1 : p.1 = (x : Int) := by rw [hpe]
      have hp2 : p.2 = (y : Int) := by rw [hpe]
      simp only [Function.comp_apply, rrToGm, keyOf, hp1, hp2]
      rw [decide_eq_decide]
      simp only [Option.some.injEq, Prod.mk.injEq]
      omega
    rw [List.filter_congr hpt]
    have hc := length_filter_eq_count_map
      (fun tg : Nat × Int × Int => keyOf tg.2)
      (keyOf ((a : Int), (b : Int))) (rrTagged t)
    exact hc.trans (rrKeys_count t ht ha hb hab)
  · intro rd
    have hren := renumber_filter_flatMap ((rrTagged t).map rrToGm)
      (fun mm : GeneratedMatch => decide (mm.round = rd))
      (fun mm : GeneratedMatch =>
        [mm.homeTeamIndex, mm.awayTeamIndex].filterMap id)
      (fun mm k => rfl) (fun mm k => rfl)
    rw [generateRoundRobin_matches_eq t ht, hren, List.filter_map,
      List.flatMap_map]
    show (((rrTagged t).filter (fun tg => decide (tg.1 = rd))).flatMap
      (fun tg => [tg.2.1.toNat, tg.2.2.toNat])).Nodup
    exact rrTagged_round_teams t ht rd

/-- Witness for C1 at `teamCount = 4`: the hypothesis `2 ≤ 4` holds and the
schedule has `4 * 3 / 2 = 6` matches. -/
theorem generateRoundRobin_correct_witness :
    2 ≤ 4 ∧ ((generateRoundRobin 4).«matches».length = 4 * (4 - 1) / 2) :=
  ⟨by decide, (generateRoundRobin_correct 4 (by decide)).1⟩

end ScoreTracker
